import Mathlib

/-!
Verification development for the `ats_scraper` repository.

The change-detection / reconciliation engine of the repository lives in
`app/routes/jobs.py` (`_upsert_jobs`) and `app/main.py`
(`_bulk_upsert_and_close`), operating on the SQLAlchemy models of
`app/models.py` (`Job`, `RunLog`), with the content-hash helper in
`utils/delta.py` (`hash_job`) and the scheduler driver `run_daily_job` in
`app/main.py`.

This file gives a shallow embedding of that code:

* A `Record` is one normalized job dict produced by an adapter
  (`j.get(field)` returns `Option String`: `none` models a missing key /
  `None` value).
* A `Job` is one row of the `jobs` table; the Catalog Store is a `List Job`,
  with list position playing the role of row identity.  Timestamps are `Nat`
  (`datetime.utcnow()` is passed in as the parameter `now`).
* `upsert_jobs` embeds `_upsert_jobs` of `app/routes/jobs.py` and
  `bulk_upsert_and_close` embeds `_bulk_upsert_and_close` of `app/main.py`.
  The session is created with `autoflush=False` (`app/database.py`) and
  neither function flushes before its final `db.commit()`, so every query of
  a run — the preload *and* the close-detection query — is answered from the
  **committed** store: rows pending via `db.add` are invisible to the closure
  query, and its `WHERE` clause is evaluated against committed column
  values.  The embedding keeps the committed store `db` and the in-session
  store separate accordingly.  The commit itself flushes the staged INSERTs
  and UPDATEs, where the `uq_jobs_ats_external` unique constraint and the
  `NOT NULL` columns (`external_id`, `apply_url`, `source_url`) of
  `app/models.py` can deterministically raise `IntegrityError`; this is
  modelled by `schemaOK` inside `upsert_jobs_tx`.
-/

set_option maxHeartbeats 1000000

namespace AtsScraper

/-- The 13 normalized field names of the `NORM_FIELDS` list that appears
identically in `app/routes/jobs.py` and `app/main.py`. -/
inductive Field where
  | external_id
  | ats_type
  | company_name
  | title
  | department
  | location_text
  | remote_type
  | employment_type
  | posted_at
  | updated_at_source
  | apply_url
  | source_url
  | description_html
  deriving DecidableEq, Repr

/-- `NORM_FIELDS` in source order. -/
def NORM_FIELDS : List Field :=
  [.external_id, .ats_type, .company_name, .title, .department, .location_text,
   .remote_type, .employment_type, .posted_at, .updated_at_source, .apply_url,
   .source_url, .description_html]

/-- A normalized job dict as handed to the reconcile functions.  Each field is
`Option String`: `j.get(f)` in Python yields `None` for a missing key, which is
modelled by `none`. -/
structure Record where
  external_id : Option String
  ats_type : Option String
  company_name : Option String
  title : Option String
  department : Option String
  location_text : Option String
  remote_type : Option String
  employment_type : Option String
  posted_at : Option String
  updated_at_source : Option String
  apply_url : Option String
  source_url : Option String
  description_html : Option String
  deriving DecidableEq, Repr

/-- `j.get(f)` for the 13 normalized fields. -/
def Record.get (j : Record) : Field → Option String
  | .external_id => j.external_id
  | .ats_type => j.ats_type
  | .company_name => j.company_name
  | .title => j.title
  | .department => j.department
  | .location_text => j.location_text
  | .remote_type => j.remote_type
  | .employment_type => j.employment_type
  | .posted_at => j.posted_at
  | .updated_at_source => j.updated_at_source
  | .apply_url => j.apply_url
  | .source_url => j.source_url
  | .description_html => j.description_html

/-- One row of the `jobs` table (`class Job` of `app/models.py`): the 13
normalized columns, the lifecycle flags `is_active`, `closed`, `closed_at`,
and the history timestamps.  The autoincrement `id` column is modelled by the
row's position in the store list. -/
structure Job where
  external_id : Option String
  ats_type : Option String
  company_name : Option String
  title : Option String
  department : Option String
  location_text : Option String
  remote_type : Option String
  employment_type : Option String
  posted_at : Option String
  updated_at_source : Option String
  apply_url : Option String
  source_url : Option String
  description_html : Option String
  is_active : Bool
  closed : Bool
  closed_at : Option Nat
  first_seen_at : Nat
  last_seen_at : Nat
  deriving DecidableEq, Repr

/-- `getattr(row, f)` for the 13 normalized columns. -/
def Job.getF (r : Job) : Field → Option String
  | .external_id => r.external_id
  | .ats_type => r.ats_type
  | .company_name => r.company_name
  | .title => r.title
  | .department => r.department
  | .location_text => r.location_text
  | .remote_type => r.remote_type
  | .employment_type => r.employment_type
  | .posted_at => r.posted_at
  | .updated_at_source => r.updated_at_source
  | .apply_url => r.apply_url
  | .source_url => r.source_url
  | .description_html => r.description_html

/-- `setattr(row, f, v)` for the 13 normalized columns. -/
def Job.setF (r : Job) (f : Field) (v : Option String) : Job :=
  match f with
  | .external_id => { r with external_id := v }
  | .ats_type => { r with ats_type := v }
  | .company_name => { r with company_name := v }
  | .title => { r with title := v }
  | .department => { r with department := v }
  | .location_text => { r with location_text := v }
  | .remote_type => { r with remote_type := v }
  | .employment_type => { r with employment_type := v }
  | .posted_at => { r with posted_at := v }
  | .updated_at_source => { r with updated_at_source := v }
  | .apply_url => { r with apply_url := v }
  | .source_url => { r with source_url := v }
  | .description_html => { r with description_html := v }

/-- The Catalog Store: the `jobs` table as an ordered list of rows. -/
abbrev Store := List Job

/-- The counts dict `{"new": ..., "updated": ..., "closed": ...}` returned by
the reconcile functions. -/
structure Counts where
  new : Nat
  updated : Nat
  closed : Nat
  deriving DecidableEq, Repr

/-- Python truthiness of an optional string (`if j.get("external_id")`):
`None` and the empty string are falsy. -/
def truthy : Option String → Bool
  | none => false
  | some s => s ≠ ""

/-- Python `f"{x}"` for an optional string: `None` renders as `"None"`. -/
def optStr : Option String → String
  | none => "None"
  | some s => s

/-- The dict key `f"{ats_type}|{external_id}"` used for `existing_map` in both
reconcile functions. -/
def keyOf (a e : Option String) : String :=
  (optStr a ++ "|") ++ optStr e

/-- Key of an incoming record: `f"{j.get('ats_type')}|{j.get('external_id')}"`. -/
def Record.key (j : Record) : String :=
  keyOf j.ats_type j.external_id

/-- Key of a stored row: `f"{row.ats_type}|{row.external_id}"`. -/
def Job.key (r : Job) : String :=
  keyOf r.ats_type r.external_id

/-- Python-dict lookup where later insertions shadow earlier ones: the map is
kept as its insertion sequence and the **last** binding of a key wins, exactly
as building `{k: row for row in existing}` and then `.get(key)` behaves. -/
def lookupLast (m : List (String × Nat)) (k : String) : Option Nat :=
  m.foldl (fun acc p => if p.1 = k then some p.2 else acc) none

/-- The filter of the preload query
`db.query(Job).filter(Job.ats_type == ats, Job.external_id.in_(incoming_extids))`:
SQL `IN` never matches a NULL `external_id`. -/
def rowPass (ats : Option String) (extids : List String) (r : Job) : Bool :=
  r.ats_type == ats &&
    (match r.external_id with
     | some e => extids.contains e
     | none => false)

/-- `existing_map = {f"{row.ats_type}|{row.external_id}": row for row in existing}`,
keeping row identity as the row's index in the store. -/
def buildEMap (db : Store) (ats : Option String) (extids : List String) :
    List (String × Nat) :=
  (db.enum.filter (fun p => rowPass ats extids p.2)).map (fun p => (p.2.key, p.1))

/-- `incoming_extids = [j.get("external_id") for j in normalized if j.get("external_id")]`. -/
def incoming_extids (normalized : List Record) : List String :=
  normalized.filterMap (fun j =>
    match j.external_id with
    | some s => if s = "" then none else some s
    | none => none)

/-- The insert branch: `Job(**vals)` with `vals` built from the 13
`NORM_FIELDS`, `is_active=True`, `first_seen_at=last_seen_at=now`.  The two
`vals.setdefault("apply_url"/"source_url", ...)` calls in the source are
no-ops, because the dict comprehension over `NORM_FIELDS` has already created
both keys; the column defaults give `closed=False`, `closed_at=None`. -/
def mkRow (now : Nat) (j : Record) : Job :=
  { external_id := j.external_id
    ats_type := j.ats_type
    company_name := j.company_name
    title := j.title
    department := j.department
    location_text := j.location_text
    remote_type := j.remote_type
    employment_type := j.employment_type
    posted_at := j.posted_at
    updated_at_source := j.updated_at_source
    apply_url := j.apply_url
    source_url := j.source_url
    description_html := j.description_html
    is_active := true
    closed := false
    closed_at := none
    first_seen_at := now
    last_seen_at := now }

/-- The per-field update loop
`for f in NORM_FIELDS: if getattr(row, f) != j.get(f): setattr(...); changed = True`,
threading `(row, changed)`. -/
def updateFields (j : Record) (rc : Job × Bool) : Job × Bool :=
  NORM_FIELDS.foldl
    (fun rc f => if rc.1.getF f ≠ j.get f then (rc.1.setF f (j.get f), true) else rc)
    rc

/-- The update branch on a preloaded row: field diff, then the
reactivation/`last_seen_at` logic.  Returns the mutated row and the final
`changed` flag. -/
def updateRow (now : Nat) (j : Record) (row : Job) : Job × Bool :=
  let rc := updateFields j (row, false)
  if rc.1.is_active = false then
    ({ rc.1 with is_active := true, last_seen_at := now }, true)
  else
    ({ rc.1 with last_seen_at := now }, rc.2)

/-- One iteration of `for j in normalized:` threading
`(store, new_count, updated_count)`.  A map miss appends a fresh row
(`db.add`); a map hit mutates the row in place.  The `none` inner branch is
unreachable: `buildEMap` only stores valid indices. -/
def processOne (now : Nat) (emap : List (String × Nat))
    (acc : Store × Nat × Nat) (j : Record) : Store × Nat × Nat :=
  match lookupLast emap j.key with
  | none => (acc.1 ++ [mkRow now j], acc.2.1 + 1, acc.2.2)
  | some idx =>
    match acc.1.get? idx with
    | none => acc
    | some row =>
      let rc := updateRow now j row
      (acc.1.set idx rc.1, acc.2.1, acc.2.2 + (if rc.2 then 1 else 0))

/-- The state after the upsert loop of `_upsert_jobs`, before close
detection: `(store, new_count, updated_count)`. -/
def upsert_mid (now : Nat) (db : Store) (normalized : List Record) :
    Store × Nat × Nat :=
  match normalized with
  | [] => (db, 0, 0)
  | j0 :: _ =>
    normalized.foldl
      (processOne now (buildEMap db j0.ats_type (incoming_extids normalized)))
      (db, 0, 0)

/-- The close-detection filter of `_upsert_jobs`
(`Job.ats_type == ats`, `Job.company_name == company`,
`Job.external_id.isnot(None)`, `not_(Job.external_id.in_(incoming_set))`,
`Job.is_active == True`); `NOT (NULL IN ...)` selects nothing in SQL. -/
def closePred (ats company : Option String) (ids : List String) (r : Job) : Bool :=
  r.ats_type == ats && r.company_name == company && r.external_id.isSome &&
    (match r.external_id with
     | some e => !(ids.contains e)
     | none => false) &&
    r.is_active

/-- The mutation `r.is_active = False; r.last_seen_at = now` applied to a row
when the closure query selected it (`b = true`), the identity otherwise. -/
def closeMut (now : Nat) (b : Bool) (r : Job) : Job :=
  if b then { r with is_active := false, last_seen_at := now } else r

/-- Whether the closure query selects store position `i`.  The session has
`autoflush=False` (`app/database.py`) and nothing flushes before the final
commit, so the query's `WHERE` clause is evaluated on the **committed** row
values `db`; rows pending via `db.add` have no committed image and are never
selected. -/
def closeSelP (p : Job → Bool) (db : Store) (i : Nat) : Bool :=
  match db.get? i with
  | some r0 => p r0
  | none => false

/-- The closure loop `for r in to_close: r.is_active = False;
r.last_seen_at = now` over the in-session store `st`: position `i` is mutated
exactly when the committed row at `i` satisfies the query filter `p`.  (The
selected objects are exactly the in-session objects at those positions: a
selected row's committed `external_id` lies outside the incoming id set, so
it was never preloaded and the upsert loop never touched it.) -/
def applyCloseP (now : Nat) (p : Job → Bool) (db st : Store) : Store :=
  st.enum.map (fun q => closeMut now (closeSelP p db q.1) q.2)

/-- `_upsert_jobs(db, normalized)` of `app/routes/jobs.py`: empty-batch
short-circuit, scope from `normalized[0]`, bulk preload, per-record upsert,
then close detection guarded by `if company and ats:`, returning the three
counts.  The closure query runs against the committed store `db`
(`autoflush=False`), so `closed` counts committed rows only and pending
inserts are never closed.  The single `db.commit()` at the end is modelled
separately by `upsert_jobs_tx`. -/
def upsert_jobs (now : Nat) (db : Store) (normalized : List Record) :
    Store × Counts :=
  match normalized with
  | [] => (db, ⟨0, 0, 0⟩)
  | j0 :: _ =>
    let ats := j0.ats_type
    let company := j0.company_name
    let ids := incoming_extids normalized
    let m := upsert_mid now db normalized
    if truthy ats && truthy company then
      (applyCloseP now (closePred ats company ids) db m.1,
       ⟨m.2.1, m.2.2, db.countP (closePred ats company ids)⟩)
    else
      (m.1, ⟨m.2.1, m.2.2, 0⟩)

/-- The close-detection filter of `_bulk_upsert_and_close` in `app/main.py`:
identical to `closePred` except that the `NOT IN` clause is only added when
`incoming_set` is non-empty (`if incoming_set: q = q.filter(...)`). -/
def closePredBulk (ats company : Option String) (ids : List String) (r : Job) : Bool :=
  r.ats_type == ats && r.company_name == company && r.external_id.isSome &&
    (if ids.isEmpty then true
     else
       match r.external_id with
       | some e => !(ids.contains e)
       | none => false) &&
    r.is_active

/-- The state after the upsert loop of `_bulk_upsert_and_close`: the preload
query is guarded by `if incoming_extids else []`. -/
def bulk_mid (now : Nat) (db : Store) (normalized : List Record) :
    Store × Nat × Nat :=
  match normalized with
  | [] => (db, 0, 0)
  | j0 :: _ =>
    let ids := incoming_extids normalized
    let emap := if ids.isEmpty then [] else buildEMap db j0.ats_type ids
    normalized.foldl (processOne now emap) (db, 0, 0)

/-- `_bulk_upsert_and_close(db, normalized)` of `app/main.py`: same algorithm
as `_upsert_jobs` up to the two guards noted above; its closure query runs
against the committed store `db` on the same `autoflush=False` session. -/
def bulk_upsert_and_close (now : Nat) (db : Store) (normalized : List Record) :
    Store × Counts :=
  match normalized with
  | [] => (db, ⟨0, 0, 0⟩)
  | j0 :: _ =>
    let ats := j0.ats_type
    let company := j0.company_name
    let ids := incoming_extids normalized
    let m := bulk_mid now db normalized
    if truthy ats && truthy company then
      (applyCloseP now (closePredBulk ats company ids) db m.1,
       ⟨m.2.1, m.2.2, db.countP (closePredBulk ats company ids)⟩)
    else
      (m.1, ⟨m.2.1, m.2.2, 0⟩)

/-- `Job.mark_seen` of `app/models.py` (defined by the model, never called by
either reconcile function). -/
def mark_seen (now : Nat) (r : Job) : Job :=
  { r with is_active := true, closed := false, closed_at := none, last_seen_at := now }

/-- `Job.mark_closed` of `app/models.py` (defined by the model, never called by
either reconcile function). -/
def mark_closed (now : Nat) (r : Job) : Job :=
  let r1 := if r.closed = false then { r with closed := true, closed_at := some now } else r
  { r1 with is_active := false, last_seen_at := now }

/-- The `uq_jobs_ats_external` unique constraint of `app/models.py`: no two
rows share the `(ats_type, external_id)` pair. -/
def uniqueKeys (s : Store) : Prop :=
  s.Pairwise (fun r1 r2 => ¬(r1.ats_type = r2.ats_type ∧ r1.external_id = r2.external_id))

instance (s : Store) : Decidable (uniqueKeys s) := by
  unfold uniqueKeys
  infer_instance

/-- One violation of `uq_jobs_ats_external`: SQL unique constraints treat
NULLs as distinct, so two rows collide exactly when they share a non-NULL
`ats_type` and an equal `external_id`. -/
def keyClash (r1 r2 : Job) : Bool :=
  r1.ats_type.isSome && (r1.ats_type == r2.ats_type) &&
    (r1.external_id == r2.external_id)

/-- No pair of rows violates the unique constraint. -/
def uniqueOK : Store → Bool
  | [] => true
  | r :: rest => rest.all (fun r2 => !(keyClash r r2)) && uniqueOK rest

/-- The schema constraints enforced when the final `db.commit()` flushes the
run's staged INSERTs and UPDATEs: the `NOT NULL` columns `external_id`,
`apply_url`, `source_url` of `app/models.py`, and `uq_jobs_ats_external`.  A
violation makes the flush raise `IntegrityError`, the commit fails, and the
transaction rolls back.  The check is stated over the whole would-be store:
a committed store already satisfies these constraints (it passed its own
commits), so any violation in the would-be store comes from this run's
staged rows — exactly what the database validates at flush time. -/
def schemaOK (s : Store) : Bool :=
  s.all (fun r =>
      r.external_id.isSome && r.apply_url.isSome && r.source_url.isSome) &&
    uniqueOK s

/-! ### Basic lemmas about the per-field update loop -/

/-- The row produced by overwriting all 13 normalized columns of `r` with the
values of `j`, leaving lifecycle flags and timestamps untouched. -/
def withFields (j : Record) (r : Job) : Job :=
  { external_id := j.external_id
    ats_type := j.ats_type
    company_name := j.company_name
    title := j.title
    department := j.department
    location_text := j.location_text
    remote_type := j.remote_type
    employment_type := j.employment_type
    posted_at := j.posted_at
    updated_at_source := j.updated_at_source
    apply_url := j.apply_url
    source_url := j.source_url
    description_html := j.description_html
    is_active := r.is_active
    closed := r.closed
    closed_at := r.closed_at
    first_seen_at := r.first_seen_at
    last_seen_at := r.last_seen_at }

/-- Whether any normalized column of the stored row differs from the incoming
record (the value of `changed` contributed by the field loop). -/
def anyDiff (j : Record) (r : Job) : Bool :=
  NORM_FIELDS.any (fun f => r.getF f ≠ j.get f)

/-- Writing a list of fields of `j` into `r`, in order. -/
def writeList (j : Record) (fs : List Field) (r : Job) : Job :=
  fs.foldl (fun r f => r.setF f (j.get f)) r

/-- The records of `batch` whose `existing_map` lookup lands on store index `i`. -/
def hitsAt (emap : List (String × Nat)) (i : Nat) (batch : List Record) : List Record :=
  batch.filter (fun j => lookupLast emap j.key == some i)

/-- The records of `batch` missing from `existing_map` (these get inserted). -/
def missesOf (emap : List (String × Nat)) (batch : List Record) : List Record :=
  batch.filter (fun j => (lookupLast emap j.key).isNone)

/-- Sequentially apply the update branch for a list of records to one row,
accumulating the number of `changed` hits. -/
def collapse (now : Nat) (row : Job) (js : List Record) : Job × Nat :=
  js.foldl
    (fun rc j =>
      let ur := updateRow now j rc.1
      (ur.1, rc.2 + (if ur.2 then 1 else 0)))
    (row, 0)

/-- The store prefix after the loop: position `i` (counting from offset `i0`)
holds its original row collapsed with the records hitting it. -/
def collapsedFrom (now : Nat) (emap : List (String × Nat)) (batch : List Record) :
    Nat → Store → Store
  | _, [] => []
  | i, row :: rest =>
    (collapse now row (hitsAt emap i batch)).1 ::
      collapsedFrom now emap batch (i + 1) rest

/-- Total `updated_count` contributed by the hit branch. -/
def updSumFrom (now : Nat) (emap : List (String × Nat)) (batch : List Record) :
    Nat → Store → Nat
  | _, [] => 0
  | i, row :: rest =>
    (collapse now row (hitsAt emap i batch)).2 +
      updSumFrom now emap batch (i + 1) rest

/-! ### Run-ledger model (`RunLog` of `app/models.py`, helpers of `app/main.py`)

`run_daily_job` runs four adapter sections inside one `try`, each with its own
`try/except`.  Each section does `runlog = _create_runlog(...)`, fetches,
reconciles and finalizes with `status="success"`; its `except` handler calls
`_finalize_runlog(db, runlog, 0, zeros, status="error", err=str(e))` inside a
nested `try/except Exception: pass`.  Crucially, the Python local `runlog`
persists across sections: if `_create_runlog` itself raises, the handler
finalizes whatever `runlog` referred to previously (or swallows the
`NameError` in the first section).  The model keeps that local as an
`Option Nat` (index of the last successfully created row), and each row
carries a ghost `finalizeCount` counting how many times `_finalize_runlog`
ran against it. -/

structure RunLogRow where
  ats_type : String
  company_name : String
  started_at : Nat
  ended_at : Option Nat
  endpoint : Option String
  fetched : Nat
  new : Nat
  updated : Nat
  closed : Nat
  status : String
  error : Option String
  finalizeCount : Nat
  deriving DecidableEq, Repr

/-- `_create_runlog`: insert a row with `status="running"`, zero counts and no
`ended_at`; returns the row (as its index). -/
def create_runlog (logs : List RunLogRow) (ats company : String)
    (endpoint : Option String) (t : Nat) : List RunLogRow × Nat :=
  (logs ++ [⟨ats, company, t, none, endpoint, 0, 0, 0, 0, "running", none, 0⟩],
   logs.length)

/-- `_finalize_runlog`: write counts, `ended_at`, `status`, and (only when an
error message is given) `error`; bumps the ghost finalize counter. -/
def finalize_runlog (logs : List RunLogRow) (idx : Nat) (fetched : Nat)
    (counts : Counts) (status : String) (err : Option String) (t : Nat) :
    List RunLogRow :=
  match logs.get? idx with
  | none => logs
  | some row =>
    logs.set idx
      { row with
        fetched := fetched
        new := counts.new
        updated := counts.updated
        closed := counts.closed
        ended_at := some t
        status := status
        error := match err with | some e => some e | none => row.error
        finalizeCount := row.finalizeCount + 1 }

/-- Outcome of one adapter section of `run_daily_job`: whether
`_create_runlog` raises, whether the fetch/normalize/reconcile/finalize body
raises after the ledger row was created, and the success-path numbers. -/
structure SectionSpec where
  ats : String
  company : String
  endpoint : Option String
  createFails : Bool
  runFails : Bool
  errMsg : String
  fetched : Nat
  counts : Counts
  deriving DecidableEq, Repr

/-- One `try/except` section of `run_daily_job`, threading the ledger table
and the persistent Python local `runlog`. -/
def run_section (t : Nat) (st : List RunLogRow × Option Nat) (sec : SectionSpec) :
    List RunLogRow × Option Nat :=
  let logs := st.1
  let curr := st.2
  if sec.createFails then
    match curr with
    | none => (logs, none)
    | some i => (finalize_runlog logs i 0 ⟨0, 0, 0⟩ "error" (some sec.errMsg) t, some i)
  else
    let c := create_runlog logs sec.ats sec.company sec.endpoint t
    if sec.runFails then
      (finalize_runlog c.1 c.2 0 ⟨0, 0, 0⟩ "error" (some sec.errMsg) t, some c.2)
    else
      (finalize_runlog c.1 c.2 sec.fetched sec.counts "success" none t, some c.2)

/-- `run_daily_job` of `app/main.py`, over its list of adapter sections. -/
def run_daily_job (t : Nat) (secs : List SectionSpec) : List RunLogRow :=
  (secs.foldl (run_section t) ([], none)).1

/-! ### Transactional model of one reconcile call

Both reconcile functions run their queries and in-memory mutations first and
issue a single `db.commit()` at the very end.  `upsert_jobs_tx` makes the
commit point and the fault points explicit: the infrastructure faults
(preload query, closure query, commit I/O) are external flags of a
`FaultSpec`, while the commit's *deterministic* failure mode — the flush of
this run's staged rows violating `uq_jobs_ats_external` or a `NOT NULL`
column — is the `schemaOK` check on the would-be store.  The first component
of the result is the committed Catalog Store visible after the call, which
only ever changes at a successful commit; any failure raises and the
transaction rolls back. -/

structure FaultSpec where
  loadFails : Bool
  closeFails : Bool
  commitFails : Bool
  deriving DecidableEq, Repr

def upsert_jobs_tx (fl : FaultSpec) (now : Nat) (db : Store)
    (normalized : List Record) : Store × Except String Counts :=
  match normalized with
  | [] => (db, Except.ok ⟨0, 0, 0⟩)
  | j0 :: _ =>
    if fl.loadFails then (db, Except.error "preload query failed")
    else
      let ats := j0.ats_type
      let company := j0.company_name
      let ids := incoming_extids normalized
      let m := upsert_mid now db normalized
      if truthy ats && truthy company then
        if fl.closeFails then (db, Except.error "closure query failed")
        else if fl.commitFails then (db, Except.error "commit failed")
        else
          let st := applyCloseP now (closePred ats company ids) db m.1
          if schemaOK st then
            (st, Except.ok ⟨m.2.1, m.2.2, db.countP (closePred ats company ids)⟩)
          else (db, Except.error "IntegrityError")
      else
        if fl.commitFails then (db, Except.error "commit failed")
        else if schemaOK m.1 then (m.1, Except.ok ⟨m.2.1, m.2.2, 0⟩)
        else (db, Except.error "IntegrityError")

/-! ### The content hash of `utils/delta.py`

`hash_job(job)` is `hashlib.md5(json.dumps(job, sort_keys=True).encode()).hexdigest()`.
A job dict is modelled as its insertion-ordered key/value list (string or
null values), with the Python-dict invariant of pairwise-distinct keys
carried as a hypothesis; `json.dumps(..., sort_keys=True)` serializes the
entries sorted by key.  `md5_model` stands in for the `hashlib.md5`
hexdigest as a fixed deterministic digest of the serialized text — the
properties proved about `hash_job` depend only on the digest being a
function of the canonical serialization. -/

abbrev JobDict := List (String × Option String)

def jsonValStr : Option String → String
  | none => "null"
  | some s => "\"" ++ s ++ "\""

def jsonPairStr (p : String × Option String) : String :=
  "\"" ++ p.1 ++ "\": " ++ jsonValStr p.2

/-- Sort-by-key order used by `json.dumps(..., sort_keys=True)`. -/
def keyLe (p q : String × Option String) : Prop := p.1 ≤ q.1

instance : DecidableRel keyLe := fun p q => by
  unfold keyLe
  infer_instance

/-- `json.dumps(job, sort_keys=True)`: entries sorted by key, rendered with
the default `", "` and `": "` separators. -/
def dumpsSortKeys (d : JobDict) : String :=
  "\x7b" ++ String.intercalate ", " ((List.insertionSort keyLe d).map jsonPairStr) ++ "\x7d"

/-- Deterministic stand-in for the `hashlib.md5` hexdigest. -/
def md5_model (s : String) : String :=
  toString (s.data.foldl (fun a c => (a * 131 + c.toNat) % (2 ^ 128)) 7)

/-- `hash_job` of `utils/delta.py`. -/
def hash_job (d : JobDict) : String :=
  md5_model (dumpsSortKeys d)

/-! ### Concrete fixtures used by counterexamples and witnesses -/

/-- A record with every field absent. -/
def blankRec : Record :=
  ⟨none, none, none, none, none, none, none, none, none, none, none, none, none⟩

/-- A well-formed normalized record with external id `"J<i>"`. -/
def vrec (i : Nat) : Record :=
  { blankRec with
    external_id := some ("J" ++ toString i)
    ats_type := some "kekahr"
    company_name := some "AcmeCo"
    title := some "Engineer"
    apply_url := some "https://x/apply"
    source_url := some "https://x" }

/-- A malformed record: `external_id = ""`. -/
def mrec : Record := { vrec 0 with external_id := some "" }

/-- A section that succeeds end to end (the kekahr section of
`run_daily_job` on a good day). -/
def kekaSection : SectionSpec :=
  ⟨"kekahr", "10Decoders", some "https://10decoders.keka.com/careers/api", false, false,
   "", 3, ⟨1, 2, 0⟩⟩

/-- A section whose `_create_runlog` call itself raises (e.g. the insert
commit fails); the `except` handler then runs with the Python local `runlog`
still bound to the **previous** section's row. -/
def darwinCreateFail : SectionSpec :=
  ⟨"darwinbox", "ADA", none, true, false, "create failed", 0, ⟨0, 0, 0⟩⟩

instance : IsTotal (String × Option String) keyLe :=
  ⟨fun a b => le_total a.1 b.1⟩

instance : IsTrans (String × Option String) keyLe :=
  ⟨fun _ _ _ h1 h2 => le_trans h1 h2⟩

/-- Strict key order; vacuously antisymmetric, which is what
`List.eq_of_perm_of_sorted` needs. -/
def keyLt (p q : String × Option String) : Prop := p.1 < q.1

instance : IsAntisymm (String × Option String) keyLt :=
  ⟨fun _ _ h1 h2 => absurd h1 (not_lt.mpr (le_of_lt h2))⟩

/-- A record with an *empty* external id in a (keka, Acme) scope; its
`apply_url`/`source_url` are present, so the rows it stages satisfy the
`NOT NULL` columns and any commit failure is due to the unique constraint
alone. -/
def emptyIdRec : Record :=
  { blankRec with
    external_id := some ""
    ats_type := some "keka"
    company_name := some "Acme"
    apply_url := some "https://keka/apply"
    source_url := some "https://keka" }

/-- A closed (inactive) catalog row matching `emptyIdRec` field for field. -/
def closedEmptyIdRow : Job := { mkRow 0 emptyIdRec with is_active := false }

/-- Nine well-formed records `J1 .. J9`. -/
def validBatch9 : List Record := (List.range 9).map (fun i => vrec (i + 1))

/-- The nine valid records plus one record with `external_id = ""`. -/
def malformedBatch10 : List Record := mrec :: validBatch9

/-- A stale active row of the batch scope whose external id is absent from
the incoming batch. -/
def staleRow : Job := mkRow 1 { vrec 1 with external_id := some "OLD" }

theorem setF_getF_self (r : Job) (f : Field) : r.setF f (r.getF f) = r := by
  cases f <;> rfl

theorem updateFields_foldl (j : Record) :
    ∀ (fs : List Field) (r : Job) (c : Bool),
      fs.foldl
        (fun rc f => if rc.1.getF f ≠ j.get f then (rc.1.setF f (j.get f), true) else rc)
        (r, c) =
      (writeList j fs r, c || fs.any (fun f => r.getF f ≠ j.get f)) := by
  intro fs
  induction fs with
  | nil => intro r c; simp [writeList]
  | cons f fs ih =>
    intro r c
    by_cases h : r.getF f = j.get f
    · have hstep :
          (if r.getF f ≠ j.get f then (r.setF f (j.get f), true) else (r, c)) = (r, c) := by
        simp [h]
      calc
        (f :: fs).foldl
            (fun rc g => if rc.1.getF g ≠ j.get g then (rc.1.setF g (j.get g), true) else rc)
            (r, c)
          = fs.foldl
              (fun rc g => if rc.1.getF g ≠ j.get g then (rc.1.setF g (j.get g), true) else rc)
              (r, c) := by
            simp only [List.foldl_cons, hstep]
        _ = (writeList j fs r, c || fs.any (fun g => r.getF g ≠ j.get g)) := ih r c
        _ = (writeList j (f :: fs) r, c || (f :: fs).any (fun g => r.getF g ≠ j.get g)) := by
            have hw : writeList j (f :: fs) r = writeList j fs r := by
              simp only [writeList, List.foldl_cons]
              rw [← h, setF_getF_self]
            rw [hw]
            simp [h]
    · have hstep :
          (if r.getF f ≠ j.get f then (r.setF f (j.get f), true) else (r, c)) =
            (r.setF f (j.get f), true) := by
        simp [h]
      calc
        (f :: fs).foldl
            (fun rc g => if rc.1.getF g ≠ j.get g then (rc.1.setF g (j.get g), true) else rc)
            (r, c)
          = fs.foldl
              (fun rc g => if rc.1.getF g ≠ j.get g then (rc.1.setF g (j.get g), true) else rc)
              (r.setF f (j.get f), true) := by
            simp only [List.foldl_cons, hstep]
        _ = (writeList j fs (r.setF f (j.get f)),
              true || fs.any (fun g => (r.setF f (j.get f)).getF g ≠ j.get g)) :=
            ih (r.setF f (j.get f)) true
        _ = (writeList j (f :: fs) r, c || (f :: fs).any (fun g => r.getF g ≠ j.get g)) := by
            simp [writeList, h]

theorem writeList_norm_eq (j : Record) (r : Job) :
    writeList j NORM_FIELDS r = withFields j r := rfl

theorem updateFields_eq (j : Record) (r : Job) (c : Bool) :
    updateFields j (r, c) = (withFields j r, c || anyDiff j r) := by
  unfold updateFields anyDiff
  rw [updateFields_foldl, writeList_norm_eq]

@[simp] theorem withFields_is_active (j : Record) (r : Job) :
    (withFields j r).is_active = r.is_active := rfl

theorem updateRow_eq (now : Nat) (j : Record) (row : Job) :
    updateRow now j row =
      ({ withFields j row with is_active := true, last_seen_at := now },
       anyDiff j row || !row.is_active) := by
  unfold updateRow
  rw [updateFields_eq]
  by_cases h : row.is_active
  · simp [h, withFields]
  · have h2 : row.is_active = false := by simpa using h
    simp [h2, withFields]

theorem anyDiff_false_of_eq (j : Record) (row : Job)
    (hf : ∀ f, row.getF f = j.get f) : anyDiff j row = false := by
  unfold anyDiff
  rw [List.any_eq_false]
  intro f _
  simp [hf f]

theorem withFields_of_eq (j : Record) (row : Job)
    (hf : ∀ f, row.getF f = j.get f) : withFields j row = row := by
  cases row
  simp only [withFields]
  have h0 := hf .external_id
  have h1 := hf .ats_type
  have h2 := hf .company_name
  have h3 := hf .title
  have h4 := hf .department
  have h5 := hf .location_text
  have h6 := hf .remote_type
  have h7 := hf .employment_type
  have h8 := hf .posted_at
  have h9 := hf .updated_at_source
  have h10 := hf .apply_url
  have h11 := hf .source_url
  have h12 := hf .description_html
  simp only [Job.getF, Record.get] at h0 h1 h2 h3 h4 h5 h6 h7 h8 h9 h10 h11 h12
  simp [h0, h1, h2, h3, h4, h5, h6, h7, h8, h9, h10, h11, h12]

/-- If no normalized field differs and the stored row is active, the update
branch only bumps `last_seen_at` and reports `changed = false`. -/
theorem updateRow_of_same (now : Nat) (j : Record) (row : Job)
    (hf : ∀ f, row.getF f = j.get f) (ha : row.is_active = true) :
    updateRow now j row = ({ row with last_seen_at := now }, false) := by
  rw [updateRow_eq, anyDiff_false_of_eq j row hf, withFields_of_eq j row hf]
  simp [ha]

/-- If no normalized field differs but the stored row is inactive, the update
branch reactivates it, bumps `last_seen_at`, and reports `changed = true`. -/
theorem updateRow_of_same_inactive (now : Nat) (j : Record) (row : Job)
    (hf : ∀ f, row.getF f = j.get f) (ha : row.is_active = false) :
    updateRow now j row =
      ({ row with is_active := true, last_seen_at := now }, true) := by
  rw [updateRow_eq, anyDiff_false_of_eq j row hf, withFields_of_eq j row hf]
  simp [ha]

@[simp] theorem updateRow_fst_closed (now : Nat) (j : Record) (row : Job) :
    (updateRow now j row).1.closed = row.closed := by
  rw [updateRow_eq]; rfl

@[simp] theorem updateRow_fst_closed_at (now : Nat) (j : Record) (row : Job) :
    (updateRow now j row).1.closed_at = row.closed_at := by
  rw [updateRow_eq]; rfl

@[simp] theorem updateRow_fst_first_seen (now : Nat) (j : Record) (row : Job) :
    (updateRow now j row).1.first_seen_at = row.first_seen_at := by
  rw [updateRow_eq]; rfl

@[simp] theorem updateRow_fst_is_active (now : Nat) (j : Record) (row : Job) :
    (updateRow now j row).1.is_active = true := by
  rw [updateRow_eq]

@[simp] theorem updateRow_fst_last_seen (now : Nat) (j : Record) (row : Job) :
    (updateRow now j row).1.last_seen_at = now := by
  rw [updateRow_eq]

@[simp] theorem updateRow_fst_getF (now : Nat) (j : Record) (row : Job) (f : Field) :
    (updateRow now j row).1.getF f = j.get f := by
  rw [updateRow_eq]
  cases f <;> rfl

theorem updateRow_fst_ats (now : Nat) (j : Record) (row : Job) :
    (updateRow now j row).1.ats_type = j.ats_type := by
  rw [updateRow_eq]; rfl

theorem updateRow_fst_ext (now : Nat) (j : Record) (row : Job) :
    (updateRow now j row).1.external_id = j.external_id := by
  rw [updateRow_eq]; rfl

/-! ### Lemmas about `lookupLast` and `buildEMap` -/

theorem lookupLast_foldl_acc (k : String) :
    ∀ (m : List (String × Nat)) (a : Option Nat),
      m.foldl (fun acc p => if p.1 = k then some p.2 else acc) a =
        match lookupLast m k with
        | some v => some v
        | none => a := by
  intro m
  induction m with
  | nil => intro a; simp [lookupLast]
  | cons p m ih =>
    intro a
    have hm : lookupLast (p :: m) k =
        match lookupLast m k with
        | some v => some v
        | none => if p.1 = k then some p.2 else none := by
      show (p :: m).foldl (fun acc q => if q.1 = k then some q.2 else acc) none = _
      rw [List.foldl_cons, ih]
    rw [List.foldl_cons, ih, hm]
    cases h : lookupLast m k with
    | some v => rfl
    | none =>
      by_cases hp : p.1 = k <;> simp [hp]

theorem lookupLast_cons (k : String) (p : String × Nat) (m : List (String × Nat)) :
    lookupLast (p :: m) k =
      match lookupLast m k with
      | some v => some v
      | none => if p.1 = k then some p.2 else none := by
  show (p :: m).foldl (fun acc q => if q.1 = k then some q.2 else acc) none = _
  rw [List.foldl_cons, lookupLast_foldl_acc]

theorem lookupLast_eq_none_iff (m : List (String × Nat)) (k : String) :
    lookupLast m k = none ↔ ∀ p ∈ m, p.1 ≠ k := by
  induction m with
  | nil => simp [lookupLast]
  | cons p m ih =>
    rw [lookupLast_cons]
    cases h : lookupLast m k with
    | some v =>
      simp only
      constructor
      · intro hc; exact Option.noConfusion hc
      · intro hall
        have hnone : lookupLast m k = none :=
          ih.mpr (fun q hq => hall q (List.mem_cons_of_mem _ hq))
        rw [h] at hnone
        exact Option.noConfusion hnone
    | none =>
      have htail : ∀ q ∈ m, q.1 ≠ k := ih.mp h
      by_cases hp : p.1 = k
      · simp only [if_pos hp]
        constructor
        · intro hc; exact Option.noConfusion hc
        · intro hall; exact absurd hp (hall p (List.mem_cons_self p m))
      · simp only [if_neg hp]
        constructor
        · intro _ q hq
          rcases List.mem_cons.mp hq with hq | hq
          · rw [hq]; exact hp
          · exact htail q hq
        · intro _; trivial

theorem lookupLast_mem (k : String) (i : Nat) :
    ∀ (m : List (String × Nat)), lookupLast m k = some i → (k, i) ∈ m := by
  intro m
  induction m with
  | nil => intro h; simp [lookupLast] at h
  | cons p m ih =>
    intro h
    rw [lookupLast_cons] at h
    cases hm : lookupLast m k with
    | some v =>
      rw [hm] at h
      simp only [Option.some.injEq] at h
      exact List.mem_cons_of_mem _ (ih (h ▸ hm))
    | none =>
      rw [hm] at h
      simp only at h
      by_cases hp : p.1 = k
      · rw [if_pos hp] at h
        simp only [Option.some.injEq] at h
        have hpe : p = (k, i) := by
          cases p
          simp only at hp h
          simp [hp, h]
        rw [hpe]
        exact List.mem_cons_self _ m
      · rw [if_neg hp] at h
        exact Option.noConfusion h

theorem lookupLast_of_unique (k : String) (i : Nat) :
    ∀ (m : List (String × Nat)), (k, i) ∈ m → (∀ p ∈ m, p.1 = k → p.2 = i) →
      lookupLast m k = some i := by
  intro m
  induction m with
  | nil => intro hmem _; cases hmem
  | cons p m ih =>
    intro hmem huniq
    rw [lookupLast_cons]
    cases hm : lookupLast m k with
    | some v =>
      have hv : v = i :=
        huniq (k, v) (List.mem_cons_of_mem _ (lookupLast_mem k v m hm)) rfl
      simp [hv]
    | none =>
      rcases List.mem_cons.mp hmem with hp | hp
      · have h1 : p.1 = k := by rw [← hp]
        have h2 : p.2 = i := by rw [← hp]
        simp only [if_pos h1, h2]
      · exfalso
        exact (lookupLast_eq_none_iff m k).mp hm (k, i) hp rfl

theorem mem_buildEMap_iff (db : Store) (ats : Option String) (extids : List String)
    (q : String × Nat) :
    q ∈ buildEMap db ats extids ↔
      ∃ r, db.get? q.2 = some r ∧ rowPass ats extids r = true ∧ q.1 = r.key := by
  unfold buildEMap
  constructor
  · intro hq
    rcases List.mem_map.mp hq with ⟨p, hp, hpe⟩
    rcases List.mem_filter.mp hp with ⟨hpm, hpass⟩
    refine ⟨p.2, ?_, hpass, ?_⟩
    · have := List.mem_enum_iff_getElem?.mp hpm
      rw [← hpe]
      simpa [List.get?_eq_getElem?] using this
    · rw [← hpe]
  · intro ⟨r, hget, hpass, hkey⟩
    refine List.mem_map.mpr ⟨(q.2, r), ?_, ?_⟩
    · refine List.mem_filter.mpr ⟨?_, hpass⟩
      exact List.mem_enum_iff_getElem?.mpr (by simpa [List.get?_eq_getElem?] using hget)
    · cases q
      simp only at hkey
      simp [hkey]

theorem buildEMap_target (db : Store) (ats : Option String) (extids : List String)
    (k : String) (i : Nat) (h : lookupLast (buildEMap db ats extids) k = some i) :
    ∃ r, db.get? i = some r ∧ rowPass ats extids r = true ∧ k = r.key := by
  have := (mem_buildEMap_iff db ats extids (k, i)).mp (lookupLast_mem _ _ _ h)
  simpa using this

theorem buildEMap_target_lt (db : Store) (ats : Option String) (extids : List String)
    (k : String) (i : Nat) (h : lookupLast (buildEMap db ats extids) k = some i) :
    i < db.length := by
  rcases buildEMap_target db ats extids k i h with ⟨r, hget, -, -⟩
  exact List.get?_eq_some.mp hget |>.choose

theorem lookupLast_buildEMap_none (db : Store) (ats : Option String)
    (extids : List String) (k : String)
    (h : ∀ i r, db.get? i = some r → rowPass ats extids r = true → r.key ≠ k) :
    lookupLast (buildEMap db ats extids) k = none := by
  rw [lookupLast_eq_none_iff]
  intro p hp
  rcases (mem_buildEMap_iff db ats extids p).mp hp with ⟨r, hget, hpass, hkey⟩
  rw [hkey]
  exact h p.2 r hget hpass

theorem lookupLast_buildEMap_ne_none (db : Store) (ats : Option String)
    (extids : List String) (i : Nat) (r : Job)
    (hget : db.get? i = some r) (hpass : rowPass ats extids r = true) :
    lookupLast (buildEMap db ats extids) r.key ≠ none := by
  intro hc
  exact (lookupLast_eq_none_iff _ _).mp hc (r.key, i)
    ((mem_buildEMap_iff db ats extids (r.key, i)).mpr ⟨r, hget, hpass, rfl⟩) rfl

/-! ### Characterization of the upsert loop

The upsert loop either appends a fresh row (map miss) or mutates a preloaded
row in place (map hit); since `existing_map` is computed once, before the
loop, its targets always lie in the original prefix of the store.  The loop
is characterized by collapsing, at every original position, the sequence of
records that hit that position, and appending one `mkRow` per miss. -/

@[simp] theorem collapsedFrom_nil (now : Nat) (emap : List (String × Nat))
    (b : List Record) (i : Nat) :
    collapsedFrom now emap b i [] = [] := rfl

@[simp] theorem collapsedFrom_cons (now : Nat) (emap : List (String × Nat))
    (b : List Record) (i : Nat) (row : Job) (rest : Store) :
    collapsedFrom now emap b i (row :: rest) =
      (collapse now row (hitsAt emap i b)).1 ::
        collapsedFrom now emap b (i + 1) rest := rfl

@[simp] theorem updSumFrom_nil (now : Nat) (emap : List (String × Nat))
    (b : List Record) (i : Nat) :
    updSumFrom now emap b i [] = 0 := rfl

@[simp] theorem updSumFrom_cons (now : Nat) (emap : List (String × Nat))
    (b : List Record) (i : Nat) (row : Job) (rest : Store) :
    updSumFrom now emap b i (row :: rest) =
      (collapse now row (hitsAt emap i b)).2 +
        updSumFrom now emap b (i + 1) rest := rfl

theorem collapse_acc (now : Nat) :
    ∀ (js : List Record) (r : Job) (n : Nat),
      js.foldl
        (fun rc j =>
          let ur := updateRow now j rc.1
          (ur.1, rc.2 + (if ur.2 then 1 else 0)))
        (r, n) =
      ((collapse now r js).1, n + (collapse now r js).2) := by
  intro js
  induction js with
  | nil => intro r n; simp [collapse]
  | cons j js ih =>
    intro r n
    have hL : (j :: js).foldl
        (fun rc j =>
          let ur := updateRow now j rc.1
          (ur.1, rc.2 + (if ur.2 then 1 else 0)))
        (r, n) =
        ((collapse now (updateRow now j r).1 js).1,
          (n + (if (updateRow now j r).2 then 1 else 0)) +
            (collapse now (updateRow now j r).1 js).2) := by
      rw [List.foldl_cons]
      exact ih _ _
    have hR : collapse now r (j :: js) =
        ((collapse now (updateRow now j r).1 js).1,
          (0 + (if (updateRow now j r).2 then 1 else 0)) +
            (collapse now (updateRow now j r).1 js).2) := by
      show (j :: js).foldl
        (fun rc j =>
          let ur := updateRow now j rc.1
          (ur.1, rc.2 + (if ur.2 then 1 else 0)))
        (r, 0) = _
      rw [List.foldl_cons]
      exact ih _ _
    rw [hL, hR]
    simp only [Prod.mk.injEq]
    refine ⟨by trivial, by omega⟩

theorem collapse_cons (now : Nat) (j : Record) (js : List Record) (r : Job) :
    collapse now r (j :: js) =
      ((collapse now (updateRow now j r).1 js).1,
       (if (updateRow now j r).2 then 1 else 0) +
         (collapse now (updateRow now j r).1 js).2) := by
  have hR : collapse now r (j :: js) =
      ((collapse now (updateRow now j r).1 js).1,
        (0 + (if (updateRow now j r).2 then 1 else 0)) +
          (collapse now (updateRow now j r).1 js).2) := by
    show (j :: js).foldl
      (fun rc j =>
        let ur := updateRow now j rc.1
        (ur.1, rc.2 + (if ur.2 then 1 else 0)))
      (r, 0) = _
    rw [List.foldl_cons]
    exact collapse_acc now js _ _
  rw [hR]
  simp only [Prod.mk.injEq]
  refine ⟨by trivial, by omega⟩

theorem hitsAt_cons (emap : List (String × Nat)) (i : Nat) (j : Record)
    (b : List Record) :
    hitsAt emap i (j :: b) =
      if lookupLast emap j.key == some i then j :: hitsAt emap i b
      else hitsAt emap i b := by
  simp [hitsAt, List.filter_cons]

theorem missesOf_cons (emap : List (String × Nat)) (j : Record) (b : List Record) :
    missesOf emap (j :: b) =
      if (lookupLast emap j.key).isNone then j :: missesOf emap b
      else missesOf emap b := by
  simp [missesOf, List.filter_cons]

theorem collapsedFrom_congr (now : Nat) (emap : List (String × Nat))
    (b1 b2 : List Record) :
    ∀ (st : Store) (i0 : Nat),
      (∀ i, i0 ≤ i → hitsAt emap i b1 = hitsAt emap i b2) →
      collapsedFrom now emap b1 i0 st = collapsedFrom now emap b2 i0 st ∧
        updSumFrom now emap b1 i0 st = updSumFrom now emap b2 i0 st := by
  intro st
  induction st with
  | nil => intro i0 _; exact ⟨rfl, rfl⟩
  | cons row rest ih =>
    intro i0 h
    have htail := ih (i0 + 1) (fun i hi => h i (by omega))
    have hhead := h i0 (le_refl i0)
    constructor
    · rw [collapsedFrom_cons, collapsedFrom_cons, hhead, htail.1]
    · rw [updSumFrom_cons, updSumFrom_cons, hhead, htail.2]

theorem collapsedFrom_nil_batch (now : Nat) (emap : List (String × Nat)) :
    ∀ (st : Store) (i0 : Nat),
      collapsedFrom now emap [] i0 st = st ∧ updSumFrom now emap [] i0 st = 0 := by
  intro st
  induction st with
  | nil => intro i0; exact ⟨rfl, rfl⟩
  | cons row rest ih =>
    intro i0
    have h : hitsAt emap i0 ([] : List Record) = [] := rfl
    have hc : collapse now row ([] : List Record) = (row, 0) := rfl
    constructor
    · rw [collapsedFrom_cons, h, hc, (ih (i0 + 1)).1]
    · rw [updSumFrom_cons, h, hc, (ih (i0 + 1)).2]

theorem collapsedFrom_append (now : Nat) (emap : List (String × Nat))
    (b : List Record) :
    ∀ (s t : Store) (i0 : Nat),
      collapsedFrom now emap b i0 (s ++ t) =
        collapsedFrom now emap b i0 s ++ collapsedFrom now emap b (i0 + s.length) t ∧
      updSumFrom now emap b i0 (s ++ t) =
        updSumFrom now emap b i0 s + updSumFrom now emap b (i0 + s.length) t := by
  intro s
  induction s with
  | nil => intro t i0; simp
  | cons row rest ih =>
    intro t i0
    have h := ih t (i0 + 1)
    have harith : i0 + 1 + rest.length = i0 + (rest.length + 1) := by omega
    constructor
    · rw [List.cons_append, collapsedFrom_cons, h.1, harith, collapsedFrom_cons]
      simp [List.length_cons, harith]
    · rw [List.cons_append, updSumFrom_cons, h.2, harith, updSumFrom_cons]
      simp [List.length_cons, harith]
      omega

theorem hitsAt_eq_nil (emap : List (String × Nat)) (b : List Record) (L i : Nat)
    (Hm : ∀ k t, lookupLast emap k = some t → t < L) (hge : L ≤ i) :
    hitsAt emap i b = [] := by
  apply List.filter_eq_nil_iff.mpr
  intro j _
  intro hc
  rw [beq_iff_eq] at hc
  exact absurd (Hm j.key i hc) (by omega)

theorem collapsedFrom_cons_miss (now : Nat) (emap : List (String × Nat))
    (j : Record) (b : List Record) (hlook : lookupLast emap j.key = none)
    (st : Store) (i0 : Nat) :
    collapsedFrom now emap (j :: b) i0 st = collapsedFrom now emap b i0 st ∧
      updSumFrom now emap (j :: b) i0 st = updSumFrom now emap b i0 st := by
  apply collapsedFrom_congr
  intro i _
  rw [hitsAt_cons, hlook]
  simp

theorem collapsedFrom_cons_hit (now : Nat) (emap : List (String × Nat))
    (j : Record) (b : List Record) (t : Nat)
    (hlook : lookupLast emap j.key = some t) :
    ∀ (st : Store) (i0 : Nat) (row : Job), i0 ≤ t → st.get? (t - i0) = some row →
      collapsedFrom now emap (j :: b) i0 st =
        collapsedFrom now emap b i0 (st.set (t - i0) (updateRow now j row).1) ∧
      updSumFrom now emap (j :: b) i0 st =
        (if (updateRow now j row).2 then 1 else 0) +
          updSumFrom now emap b i0 (st.set (t - i0) (updateRow now j row).1) := by
  intro st
  induction st with
  | nil => intro i0 row _ hget; simp at hget
  | cons r rest ih =>
    intro i0 row hle hget
    by_cases hit : i0 = t
    · subst hit
      have hz : i0 - i0 = 0 := by omega
      rw [hz] at hget ⊢
      have hr : r = row := by
        have hx : some r = some row := hget
        injection hx
      subst hr
      have hhd : hitsAt emap i0 (j :: b) = j :: hitsAt emap i0 b := by
        rw [hitsAt_cons, hlook]
        simp
      have htl : collapsedFrom now emap (j :: b) (i0 + 1) rest =
            collapsedFrom now emap b (i0 + 1) rest ∧
          updSumFrom now emap (j :: b) (i0 + 1) rest =
            updSumFrom now emap b (i0 + 1) rest := by
        apply collapsedFrom_congr
        intro i hi
        rw [hitsAt_cons, hlook]
        have hne : ¬(i0 = i) := by omega
        simp [hne]
      have hset : (r :: rest).set 0 (updateRow now j r).1 = (updateRow now j r).1 :: rest := rfl
      rw [hset]
      constructor
      · rw [collapsedFrom_cons, collapsedFrom_cons, hhd, collapse_cons, htl.1]
      · rw [updSumFrom_cons, updSumFrom_cons, hhd, collapse_cons, htl.2]
        omega
    · have hlt : i0 < t := lt_of_le_of_ne hle hit
      have harith : t - i0 = (t - (i0 + 1)) + 1 := by omega
      rw [harith] at hget ⊢
      have hget2 : rest.get? (t - (i0 + 1)) = some row := hget
      have hih := ih (i0 + 1) row (by omega) hget2
      have hhd : hitsAt emap i0 (j :: b) = hitsAt emap i0 b := by
        rw [hitsAt_cons, hlook]
        have hne : ¬(t = i0) := by omega
        simp [hne]
      have hset : (r :: rest).set ((t - (i0 + 1)) + 1) (updateRow now j row).1 =
          r :: rest.set (t - (i0 + 1)) (updateRow now j row).1 := rfl
      rw [hset]
      constructor
      · rw [collapsedFrom_cons, collapsedFrom_cons, hhd, hih.1]
      · rw [updSumFrom_cons, updSumFrom_cons, hhd, hih.2]
        omega

/-- Full characterization of the upsert loop: provided every `existing_map`
target points into the current store (always true, since the map is built
from the store before the loop), the loop collapses each original position
with the records hitting it, appends one fresh row per missing record in
batch order, adds one to `new_count` per miss, and adds the accumulated
`changed` tallies to `updated_count`. -/
theorem loop_char (now : Nat) (emap : List (String × Nat)) :
    ∀ (batch : List Record) (st : Store) (n u : Nat),
      (∀ k t, lookupLast emap k = some t → t < st.length) →
      batch.foldl (processOne now emap) (st, n, u) =
        (collapsedFrom now emap batch 0 st ++ (missesOf emap batch).map (mkRow now),
         n + (missesOf emap batch).length,
         u + updSumFrom now emap batch 0 st) := by
  intro batch
  induction batch with
  | nil =>
    intro st n u _
    rw [List.foldl_nil]
    have h := collapsedFrom_nil_batch now emap st 0
    rw [h.1, h.2]
    simp [missesOf]
  | cons j b ih =>
    intro st n u Hm
    rw [List.foldl_cons]
    cases hlook : lookupLast emap j.key with
    | none =>
      have hstep : processOne now emap (st, n, u) j = (st ++ [mkRow now j], n + 1, u) := by
        unfold processOne
        rw [hlook]
      rw [hstep]
      have Hm2 : ∀ k t, lookupLast emap k = some t → t < (st ++ [mkRow now j]).length := by
        intro k t h
        have := Hm k t h
        rw [List.length_append]
        omega
      rw [ih (st ++ [mkRow now j]) (n + 1) u Hm2]
      have happ := collapsedFrom_append now emap b st [mkRow now j] 0
      have hnil : hitsAt emap (0 + st.length) b = [] :=
        hitsAt_eq_nil emap b st.length (0 + st.length) Hm (by omega)
      have hsing : collapsedFrom now emap b (0 + st.length) [mkRow now j] = [mkRow now j] := by
        rw [collapsedFrom_cons, collapsedFrom_nil, hnil]
        rfl
      have hsing2 : updSumFrom now emap b (0 + st.length) [mkRow now j] = 0 := by
        rw [updSumFrom_cons, updSumFrom_nil, hnil]
        rfl
      have hmiss : missesOf emap (j :: b) = j :: missesOf emap b := by
        rw [missesOf_cons, hlook]
        rfl
      have hcm := collapsedFrom_cons_miss now emap j b hlook st 0
      rw [happ.1, happ.2, hsing, hsing2, hmiss, hcm.1, hcm.2]
      simp only [Prod.mk.injEq, List.map_cons, List.length_cons]
      refine ⟨?_, by omega, by omega⟩
      rw [List.append_assoc]
      rfl
    | some t =>
      have ht : t < st.length := Hm j.key t hlook
      have hget : st.get? t = some (st.get ⟨t, ht⟩) := List.get?_eq_get ht
      have hstep : processOne now emap (st, n, u) j =
          (st.set t (updateRow now j (st.get ⟨t, ht⟩)).1, n,
            u + (if (updateRow now j (st.get ⟨t, ht⟩)).2 then 1 else 0)) := by
        simp [processOne, hlook, List.getElem?_eq_getElem ht]
      rw [hstep]
      have Hm2 : ∀ k s, lookupLast emap k = some s →
          s < (st.set t (updateRow now j (st.get ⟨t, ht⟩)).1).length := by
        intro k s h
        have := Hm k s h
        rw [List.length_set]
        omega
      rw [ih _ _ _ Hm2]
      have hch := collapsedFrom_cons_hit now emap j b t hlook st 0 (st.get ⟨t, ht⟩)
        (by omega) (by simp [hget])
      have hmiss : missesOf emap (j :: b) = missesOf emap b := by
        rw [missesOf_cons, hlook]
        rfl
      have hz : t - 0 = t := by omega
      rw [hz] at hch
      rw [hmiss, hch.1, hch.2]
      simp only [Prod.mk.injEq]
      refine ⟨by trivial, by trivial, by omega⟩

theorem collapsedFrom_length (now : Nat) (emap : List (String × Nat))
    (b : List Record) :
    ∀ (st : Store) (i0 : Nat), (collapsedFrom now emap b i0 st).length = st.length := by
  intro st
  induction st with
  | nil => intro i0; rfl
  | cons row rest ih =>
    intro i0
    rw [collapsedFrom_cons, List.length_cons, List.length_cons, ih (i0 + 1)]

theorem collapsedFrom_get? (now : Nat) (emap : List (String × Nat))
    (b : List Record) :
    ∀ (st : Store) (i0 i : Nat),
      (collapsedFrom now emap b i0 st).get? i =
        (st.get? i).map (fun row => (collapse now row (hitsAt emap (i0 + i) b)).1) := by
  intro st
  induction st with
  | nil => intro i0 i; rfl
  | cons row rest ih =>
    intro i0 i
    cases i with
    | zero => rw [collapsedFrom_cons]; rfl
    | succ m =>
      rw [collapsedFrom_cons]
      show (collapsedFrom now emap b (i0 + 1) rest).get? m = _
      rw [ih (i0 + 1) m]
      have harith : i0 + 1 + m = i0 + (m + 1) := by omega
      rw [harith]
      rfl

theorem collapse_frame (now : Nat) :
    ∀ (js : List Record) (row : Job),
      (collapse now row js).1.closed = row.closed ∧
      (collapse now row js).1.closed_at = row.closed_at ∧
      (collapse now row js).1.first_seen_at = row.first_seen_at := by
  intro js
  induction js with
  | nil => intro row; exact ⟨rfl, rfl, rfl⟩
  | cons j js ih =>
    intro row
    rw [collapse_cons]
    have h := ih (updateRow now j row).1
    simp only at h
    refine ⟨?_, ?_, ?_⟩
    · rw [h.1, updateRow_fst_closed]
    · rw [h.2.1, updateRow_fst_closed_at]
    · rw [h.2.2, updateRow_fst_first_seen]

theorem closeMut_false (now : Nat) (r : Job) : closeMut now false r = r := rfl

theorem closeMut_true (now : Nat) (r : Job) :
    closeMut now true r = { r with is_active := false, last_seen_at := now } := rfl

theorem closeMut_closed (now : Nat) (b : Bool) (r : Job) :
    (closeMut now b r).closed = r.closed := by
  cases b <;> rfl

theorem closeMut_closed_at (now : Nat) (b : Bool) (r : Job) :
    (closeMut now b r).closed_at = r.closed_at := by
  cases b <;> rfl

theorem closeMut_first_seen (now : Nat) (b : Bool) (r : Job) :
    (closeMut now b r).first_seen_at = r.first_seen_at := by
  cases b <;> rfl

theorem closeMut_ats (now : Nat) (b : Bool) (r : Job) :
    (closeMut now b r).ats_type = r.ats_type := by
  cases b <;> rfl

theorem closeMut_ext (now : Nat) (b : Bool) (r : Job) :
    (closeMut now b r).external_id = r.external_id := by
  cases b <;> rfl

theorem closeMut_getF (now : Nat) (b : Bool) (r : Job) (f : Field) :
    (closeMut now b r).getF f = r.getF f := by
  cases b
  · rfl
  · cases f <;> rfl

theorem closeSelP_none (p : Job → Bool) (db : Store) (i : Nat)
    (h : db.get? i = none) : closeSelP p db i = false := by
  unfold closeSelP
  rw [h]

theorem closeSelP_some (p : Job → Bool) (db : Store) (i : Nat) (r0 : Job)
    (h : db.get? i = some r0) : closeSelP p db i = p r0 := by
  unfold closeSelP
  rw [h]

theorem applyCloseP_get? (now : Nat) (p : Job → Bool) (db st : Store) (i : Nat) :
    (applyCloseP now p db st).get? i =
      (st.get? i).map (closeMut now (closeSelP p db i)) := by
  unfold applyCloseP
  rw [List.get?_map, List.get?_enum]
  cases h : st.get? i <;> rfl

theorem applyCloseP_length (now : Nat) (p : Job → Bool) (db st : Store) :
    (applyCloseP now p db st).length = st.length := by
  unfold applyCloseP
  rw [List.length_map, List.enum_length]

theorem applyCloseP_drop (now : Nat) (p : Job → Bool) (db st : Store) :
    (applyCloseP now p db st).drop db.length = st.drop db.length := by
  apply List.ext_get?
  intro n
  rw [List.get?_drop, List.get?_drop, applyCloseP_get?,
    closeSelP_none p db (db.length + n) (List.get?_eq_none.mpr (Nat.le_add_right _ _))]
  cases h : st.get? (db.length + n) <;> rfl

theorem emap_targets (db : Store) (a : Option String) (ids : List String) :
    ∀ k t, lookupLast (buildEMap db a ids) k = some t → t < db.length :=
  fun k t h => buildEMap_target_lt db a ids k t h

/-- The upsert phase of `_upsert_jobs`, characterized. -/
theorem upsert_mid_char (now : Nat) (db : Store) (j0 : Record) (bt : List Record) :
    upsert_mid now db (j0 :: bt) =
      (collapsedFrom now (buildEMap db j0.ats_type (incoming_extids (j0 :: bt)))
          (j0 :: bt) 0 db ++
        (missesOf (buildEMap db j0.ats_type (incoming_extids (j0 :: bt)))
            (j0 :: bt)).map (mkRow now),
       (missesOf (buildEMap db j0.ats_type (incoming_extids (j0 :: bt)))
           (j0 :: bt)).length,
       updSumFrom now (buildEMap db j0.ats_type (incoming_extids (j0 :: bt)))
         (j0 :: bt) 0 db) := by
  show (j0 :: bt).foldl
      (processOne now (buildEMap db j0.ats_type (incoming_extids (j0 :: bt)))) (db, 0, 0) = _
  rw [loop_char now _ (j0 :: bt) db 0 0 (emap_targets db _ _)]
  simp

/-! ### `_bulk_upsert_and_close` and `_upsert_jobs` compute the same function -/

theorem buildEMap_nil_ids (db : Store) (a : Option String) :
    buildEMap db a [] = [] := by
  unfold buildEMap
  have h : db.enum.filter (fun p => rowPass a [] p.2) = [] := by
    apply List.filter_eq_nil_iff.mpr
    intro p _
    unfold rowPass
    cases p.2.external_id <;> simp
  rw [h]
  rfl

theorem closePredBulk_eq (a c : Option String) (ids : List String) (r : Job) :
    closePredBulk a c ids r = closePred a c ids r := by
  unfold closePredBulk closePred
  cases hids : ids.isEmpty
  · simp [hids]
  · have hnil : ids = [] := List.isEmpty_iff.mp hids
    subst hnil
    cases hext : r.external_id <;> simp [hext]

theorem bulk_mid_eq (now : Nat) (db : Store) (normalized : List Record) :
    bulk_mid now db normalized = upsert_mid now db normalized := by
  cases normalized with
  | nil => rfl
  | cons j0 bt =>
    unfold bulk_mid upsert_mid
    cases hids : (incoming_extids (j0 :: bt)).isEmpty
    · simp [hids]
    · have hnil : incoming_extids (j0 :: bt) = [] := List.isEmpty_iff.mp hids
      simp [hids, hnil, buildEMap_nil_ids]

/-- The two reconcile implementations (`app/main.py` and
`app/routes/jobs.py`) agree on every input: the guards
`if incoming_extids else []` and `if incoming_set:` in `_bulk_upsert_and_close`
only skip work that is vacuous anyway. -/
theorem bulk_eq_upsert (now : Nat) (db : Store) (normalized : List Record) :
    bulk_upsert_and_close now db normalized = upsert_jobs now db normalized := by
  cases normalized with
  | nil => rfl
  | cons j0 bt =>
    unfold bulk_upsert_and_close upsert_jobs
    have hpred : closePredBulk j0.ats_type j0.company_name (incoming_extids (j0 :: bt)) =
        closePred j0.ats_type j0.company_name (incoming_extids (j0 :: bt)) :=
      funext (fun r => closePredBulk_eq _ _ _ r)
    simp only [bulk_mid_eq, hpred]

/-! ### Helper lemmas on incoming ids and keys -/

theorem mem_incoming_extids (b : List Record) (x : String) :
    x ∈ incoming_extids b ↔ ∃ j ∈ b, j.external_id = some x ∧ x ≠ "" := by
  unfold incoming_extids
  rw [List.mem_filterMap]
  constructor
  · intro ⟨j, hj, hx⟩
    cases hext : j.external_id with
    | none => rw [hext] at hx; cases hx
    | some s =>
      rw [hext] at hx
      by_cases hs : s = ""
      · simp [hs] at hx
      · simp [hs] at hx
        exact ⟨j, hj, by rw [hext, hx], hx ▸ hs⟩
  · intro ⟨j, hj, hx, hne⟩
    refine ⟨j, hj, ?_⟩
    rw [hx]
    simp [hne]

theorem ne_empty_of_mem_extids (b : List Record) (x : String)
    (h : x ∈ incoming_extids b) : x ≠ "" :=
  ((mem_incoming_extids b x).mp h).choose_spec.2.2

theorem str_append_cancel (s t u : String) (h : s ++ t = s ++ u) : t = u := by
  have hd : (s ++ t).data = (s ++ u).data := by rw [h]
  rw [String.data_append, String.data_append] at hd
  exact String.ext (List.append_cancel_left hd)

theorem keyOf_right_inj (a e1 e2 : Option String)
    (h : keyOf a e1 = keyOf a e2) : optStr e1 = optStr e2 :=
  str_append_cancel _ _ _ h

@[simp] theorem optStr_some (s : String) : optStr (some s) = s := rfl

/-! ## C1 — empty batch is a complete no-op -/

/-- C1: for every catalog state, reconciling a batch with zero records leaves
every Job row unchanged — no inserts, no field updates, no `is_active` or
`last_seen_at` changes — and reports `{new: 0, updated: 0, closed: 0}`; this
holds for `_upsert_jobs` (`app/routes/jobs.py`) and `_bulk_upsert_and_close`
(`app/main.py`) alike, both of which short-circuit on `if not normalized:`
before touching the session. -/
theorem c1_empty_batch_noop (now : Nat) (db : Store) :
    upsert_jobs now db [] = (db, ⟨0, 0, 0⟩) ∧
      bulk_upsert_and_close now db [] = (db, ⟨0, 0, 0⟩) :=
  ⟨rfl, rfl⟩

/-! ## C6 — run-ledger rows are not always finalized exactly once -/

/-- C6 (code bug): when `run_daily_job` runs the kekahr section successfully,
that section's ledger row is finalized once with `status="success"`; but if
the next section's `_create_runlog` raises, the `except` handler finalizes
the *stale* `runlog` local — the already-finalized kekahr row — a second
time, overwriting its successful result with `status="error"` and the other
adapter's error message.  The row is thus finalized twice, contradicting the
claim that a ledger row transitions to a final status exactly once and is
never re-finalized. -/
theorem c6_runlog_double_finalize :
    (run_daily_job 5 [kekaSection]).map
        (fun r => (r.status, r.error, r.finalizeCount)) =
      [("success", none, 1)] ∧
    (run_daily_job 5 [kekaSection, darwinCreateFail]).map
        (fun r => (r.status, r.error, r.finalizeCount)) =
      [("error", some "create failed", 2)] := by
  constructor <;> rfl

/-! ## C7 — one reconcile call is transactional -/

/-- C7: a reconcile call publishes its writes only through the single
`db.commit()` at its end.  If the persistence layer faults at the preload
query, the closure query, or the commit itself — whether an external fault or
the flush of this run's staged rows raising `IntegrityError` — the call
surfaces an error, no counts are returned, and the committed Catalog Store is
exactly the pre-call store; on success the committed store and the returned
counts are exactly those of the full reconcile. -/
theorem c7_reconcile_atomic (fl : FaultSpec) (now : Nat) (db : Store)
    (normalized : List Record) :
    (∀ e, (upsert_jobs_tx fl now db normalized).2 = Except.error e →
        (upsert_jobs_tx fl now db normalized).1 = db) ∧
    (∀ c, (upsert_jobs_tx fl now db normalized).2 = Except.ok c →
        (upsert_jobs_tx fl now db normalized).1 = (upsert_jobs now db normalized).1 ∧
          c = (upsert_jobs now db normalized).2) := by
  cases normalized with
  | nil =>
    constructor
    · intro e h
      exact absurd h (by simp [upsert_jobs_tx])
    · intro c h
      simp only [upsert_jobs_tx] at h
      injection h with h
      subst h
      exact ⟨rfl, rfl⟩
  | cons j0 bt =>
    cases hl : fl.loadFails
    · cases hsc : truthy j0.ats_type && truthy j0.company_name
      · cases hcm : fl.commitFails
        · cases hok : schemaOK (upsert_mid now db (j0 :: bt)).1
          · constructor
            · intro e h
              simp [upsert_jobs_tx, hl, hsc, hcm, hok]
            · intro c h
              exact absurd h (by simp [upsert_jobs_tx, hl, hsc, hcm, hok])
          · constructor
            · intro e h
              exact absurd h (by simp [upsert_jobs_tx, hl, hsc, hcm, hok])
            · intro c h
              simp only [upsert_jobs_tx, hl, hsc, hcm, hok] at h
              simp only [Bool.false_eq_true, if_false, if_true] at h
              injection h with h
              subst h
              constructor
              · simp [upsert_jobs_tx, upsert_jobs, hl, hsc, hcm, hok]
              · simp [upsert_jobs, hsc]
        · constructor
          · intro e h
            simp [upsert_jobs_tx, hl, hsc, hcm]
          · intro c h
            exact absurd h (by simp [upsert_jobs_tx, hl, hsc, hcm])
      · cases hcl : fl.closeFails
        · cases hcm : fl.commitFails
          · cases hok : schemaOK (applyCloseP now
                (closePred j0.ats_type j0.company_name (incoming_extids (j0 :: bt)))
                db (upsert_mid now db (j0 :: bt)).1)
            · constructor
              · intro e h
                simp [upsert_jobs_tx, hl, hsc, hcl, hcm, hok]
              · intro c h
                exact absurd h (by simp [upsert_jobs_tx, hl, hsc, hcl, hcm, hok])
            · constructor
              · intro e h
                exact absurd h (by simp [upsert_jobs_tx, hl, hsc, hcl, hcm, hok])
              · intro c h
                simp only [upsert_jobs_tx, hl, hsc, hcl, hcm, hok] at h
                simp only [Bool.false_eq_true, if_false, if_true] at h
                injection h with h
                subst h
                constructor
                · simp [upsert_jobs_tx, upsert_jobs, hl, hsc, hcl, hcm, hok]
                · simp [upsert_jobs, hsc]
          · constructor
            · intro e h
              simp [upsert_jobs_tx, hl, hsc, hcl, hcm]
            · intro c h
              exact absurd h (by simp [upsert_jobs_tx, hl, hsc, hcl, hcm])
        · constructor
          · intro e h
            simp [upsert_jobs_tx, hl, hsc, hcl]
          · intro c h
            exact absurd h (by simp [upsert_jobs_tx, hl, hsc, hcl])
    · constructor
      · intro e h
        simp [upsert_jobs_tx, hl]
      · intro c h
        exact absurd h (by simp [upsert_jobs_tx, hl])

/-- Witness for C7 at concrete inputs: a preload fault on a one-record batch
leaves the empty store untouched, and the fault-free run commits exactly the
full reconcile result. -/
theorem c7_reconcile_atomic_witness :
    (upsert_jobs_tx ⟨true, false, false⟩ 1 [] [vrec 1]).1 = [] ∧
    ((upsert_jobs_tx ⟨false, false, false⟩ 1 [] [vrec 1]).1 =
        (upsert_jobs 1 [] [vrec 1]).1 ∧
      (upsert_jobs 1 [] [vrec 1]).2 =
        (upsert_jobs 1 [] [vrec 1]).2) := by
  constructor
  · exact (c7_reconcile_atomic ⟨true, false, false⟩ 1 [] [vrec 1]).1
      "preload query failed" rfl
  · constructor
    · exact ((c7_reconcile_atomic ⟨false, false, false⟩ 1 [] [vrec 1]).2
        (upsert_jobs 1 [] [vrec 1]).2 (by rfl)).1
    · rfl

/-! ## C9 — duplicate keys in one batch are each counted and inserted -/

/-- C9: two records of one batch sharing a `(ats_type, external_id)` key that
has no existing catalog entry are each counted as `new` and each get their
own insert, because `existing_map` is preloaded before the loop and never
updated as rows are added — so the resulting store holds two rows violating
the `uq_jobs_ats_external` unique constraint. -/
theorem c9_duplicate_keys (now : Nat) (db : Store) (r1 r2 : Record) (a x : String)
    (h1a : r1.ats_type = some a) (h2a : r2.ats_type = some a)
    (h1e : r1.external_id = some x) (h2e : r2.external_id = some x)
    (hx : x ≠ "")
    (habs : ∀ i r, db.get? i = some r →
      ¬(r.ats_type = some a ∧ r.external_id = some x)) :
    (upsert_jobs now db [r1, r2]).2.new = 2 ∧
      ¬ uniqueKeys (upsert_jobs now db [r1, r2]).1 := by
  have hids : incoming_extids [r1, r2] = [x, x] := by
    simp [incoming_extids, h1e, h2e, hx]
  have hemap : buildEMap db r1.ats_type (incoming_extids [r1, r2]) = [] := by
    rw [List.eq_nil_iff_forall_not_mem]
    intro q hq
    rcases (mem_buildEMap_iff db _ _ q).mp hq with ⟨r, hget, hpass, _⟩
    unfold rowPass at hpass
    rw [Bool.and_eq_true, beq_iff_eq] at hpass
    rcases hpass with ⟨hpa, hpe⟩
    cases hext : r.external_id with
    | none => rw [hext] at hpe; exact Bool.noConfusion hpe
    | some e =>
      rw [hext] at hpe
      rw [hids] at hpe
      simp at hpe
      exact habs q.2 r hget ⟨by rw [hpa, h1a], by rw [hext, hpe]⟩
  have hl1 : lookupLast (buildEMap db r1.ats_type (incoming_extids [r1, r2]))
      r1.key = none := by rw [hemap]; rfl
  have hl2 : lookupLast (buildEMap db r1.ats_type (incoming_extids [r1, r2]))
      r2.key = none := by rw [hemap]; rfl
  have hmid : upsert_mid now db [r1, r2] =
      (db ++ [mkRow now r1, mkRow now r2], 2, 0) := by
    show [r1, r2].foldl
        (processOne now (buildEMap db r1.ats_type (incoming_extids [r1, r2])))
        (db, 0, 0) = _
    rw [List.foldl_cons]
    have hs1 : processOne now (buildEMap db r1.ats_type (incoming_extids [r1, r2]))
        (db, 0, 0) r1 = (db ++ [mkRow now r1], 1, 0) := by
      simp [processOne, hl1]
    rw [hs1, List.foldl_cons, List.foldl_nil]
    have hs2 : processOne now (buildEMap db r1.ats_type (incoming_extids [r1, r2]))
        (db ++ [mkRow now r1], 1, 0) r2 = (db ++ [mkRow now r1, mkRow now r2], 2, 0) := by
      simp [processOne, hl2]
    rw [hs2]
  have happ1 : (db ++ [mkRow now r1, mkRow now r2]).get? db.length =
      some (mkRow now r1) := by
    rw [List.get?_append_right (le_refl _), Nat.sub_self]
    rfl
  have happ2 : (db ++ [mkRow now r1, mkRow now r2]).get? (db.length + 1) =
      some (mkRow now r2) := by
    rw [List.get?_append_right (by omega : db.length ≤ db.length + 1)]
    have hs : db.length + 1 - db.length = 1 := by omega
    rw [hs]
    rfl
  have hkill : ∀ (st : Store), st.get? db.length = some (mkRow now r1) →
      st.get? (db.length + 1) = some (mkRow now r2) → ¬ uniqueKeys st := by
    intro st hg1 hg2 hu
    have hn1 : db.length < st.length := (List.get?_eq_some.mp hg1).choose
    have hn2 : db.length + 1 < st.length := (List.get?_eq_some.mp hg2).choose
    have hv1 : st[db.length] = mkRow now r1 := by
      have hq := hg1
      rw [List.get?_eq_getElem?, List.getElem?_eq_getElem hn1] at hq
      injection hq
    have hv2 : st[db.length + 1] = mkRow now r2 := by
      have hq := hg2
      rw [List.get?_eq_getElem?, List.getElem?_eq_getElem hn2] at hq
      injection hq
    have hp := (List.pairwise_iff_getElem.mp hu) db.length (db.length + 1) hn1 hn2
      (by omega)
    rw [hv1, hv2] at hp
    refine hp ⟨?_, ?_⟩
    · show r1.ats_type = r2.ats_type
      rw [h1a, h2a]
    · show r1.external_id = r2.external_id
      rw [h1e, h2e]
  cases hsc : truthy r1.ats_type && truthy r1.company_name
  · have hup : upsert_jobs now db [r1, r2] =
        (db ++ [mkRow now r1, mkRow now r2], ⟨2, 0, 0⟩) := by
      simp [upsert_jobs, hsc, hmid]
    rw [hup]
    exact ⟨rfl, hkill _ happ1 happ2⟩
  · have hup1 : (upsert_jobs now db [r1, r2]).1 =
        applyCloseP now
          (closePred r1.ats_type r1.company_name (incoming_extids [r1, r2])) db
          (db ++ [mkRow now r1, mkRow now r2]) := by
      simp [upsert_jobs, hsc, hmid]
    have hup2 : (upsert_jobs now db [r1, r2]).2.new = 2 := by
      simp [upsert_jobs, hsc, hmid]
    refine ⟨hup2, hkill _ ?_ ?_⟩
    · rw [hup1, applyCloseP_get?, happ1,
        closeSelP_none _ _ _ (List.get?_eq_none.mpr (le_refl _)), Option.map_some',
        closeMut_false]
    · rw [hup1, applyCloseP_get?, happ2,
        closeSelP_none _ _ _ (List.get?_eq_none.mpr (by omega)), Option.map_some',
        closeMut_false]

/-- Witness for C9: a two-record batch with duplicate key `("kekahr", "J1")`
on the empty store yields `new = 2` and a store violating the unique
constraint. -/
theorem c9_duplicate_keys_witness :
    (upsert_jobs 3 [] [vrec 1, vrec 1]).2.new = 2 ∧
      ¬ uniqueKeys (upsert_jobs 3 [] [vrec 1, vrec 1]).1 :=
  c9_duplicate_keys 3 [] (vrec 1) (vrec 1) "kekahr" "J1" rfl rfl rfl rfl
    (by decide) (by intro i r h; simp at h)

/-! ## C10 — reconciliation never writes `closed` or `closed_at` -/

/-- C10: every reconcile path leaves each pre-existing row's `closed` flag
and `closed_at` timestamp unchanged (closure and reactivation touch only
`is_active` and `last_seen_at`), and every row the engine inserts has
`closed = false` and `closed_at = null` from the column defaults — the
`Job.mark_closed` / `Job.mark_seen` helpers of `app/models.py`, which are
the only code that writes those columns, are never invoked by the engine. -/
theorem c10_closed_frame (now : Nat) (db : Store) (normalized : List Record) :
    (∀ i r0 r1, db.get? i = some r0 →
        (upsert_jobs now db normalized).1.get? i = some r1 →
        r1.closed = r0.closed ∧ r1.closed_at = r0.closed_at) ∧
    (∀ i r, db.length ≤ i →
        (upsert_jobs now db normalized).1.get? i = some r →
        r.closed = false ∧ r.closed_at = none) := by
  cases normalized with
  | nil =>
    constructor
    · intro i r0 r1 h0 h1
      simp only [upsert_jobs] at h1
      rw [h0] at h1
      injection h1 with h1
      subst h1
      exact ⟨rfl, rfl⟩
    · intro i r hlen h1
      simp only [upsert_jobs] at h1
      rw [List.get?_eq_none.mpr hlen] at h1
      exact Option.noConfusion h1
  | cons j0 bt =>
    have hm := upsert_mid_char now db j0 bt
    have hmid1 : (upsert_mid now db (j0 :: bt)).1 =
        collapsedFrom now (buildEMap db j0.ats_type (incoming_extids (j0 :: bt)))
            (j0 :: bt) 0 db ++
          (missesOf (buildEMap db j0.ats_type (incoming_extids (j0 :: bt)))
              (j0 :: bt)).map (mkRow now) := by
      rw [hm]
    have hmidfacts : ∀ i r1, (upsert_mid now db (j0 :: bt)).1.get? i = some r1 →
        (∀ r0, db.get? i = some r0 →
          r1.closed = r0.closed ∧ r1.closed_at = r0.closed_at) ∧
        (db.length ≤ i → r1.closed = false ∧ r1.closed_at = none) := by
      intro i r1 h1
      rw [hmid1] at h1
      by_cases hi : i < db.length
      · have hcflen : i < (collapsedFrom now
            (buildEMap db j0.ats_type (incoming_extids (j0 :: bt)))
            (j0 :: bt) 0 db).length := by
          rw [collapsedFrom_length]
          exact hi
        rw [List.get?_append hcflen] at h1
        rw [collapsedFrom_get?] at h1
        constructor
        · intro r0 h0
          rw [h0] at h1
          simp only [Option.map_some'] at h1
          injection h1 with h1
          have hfr := collapse_frame now
            (hitsAt (buildEMap db j0.ats_type (incoming_extids (j0 :: bt))) (0 + i)
              (j0 :: bt)) r0
          rw [← h1] at *
          exact ⟨hfr.1, hfr.2.1⟩
        · intro hile
          omega
      · push_neg at hi
        have hcflen : (collapsedFrom now
            (buildEMap db j0.ats_type (incoming_extids (j0 :: bt)))
            (j0 :: bt) 0 db).length ≤ i := by
          rw [collapsedFrom_length]
          exact hi
        rw [List.get?_append_right hcflen] at h1
        have hr1mem : r1 ∈ (missesOf (buildEMap db j0.ats_type
            (incoming_extids (j0 :: bt))) (j0 :: bt)).map (mkRow now) :=
          List.get?_mem h1
        rcases List.mem_map.mp hr1mem with ⟨j, -, hj⟩
        constructor
        · intro r0 h0
          exfalso
          have := List.get?_eq_none.mpr hi
          rw [h0] at this
          exact Option.noConfusion this
        · intro _
          rw [← hj]
          exact ⟨rfl, rfl⟩
    have hfinal : ∀ i r1, (upsert_jobs now db (j0 :: bt)).1.get? i = some r1 →
        ∃ rm, (upsert_mid now db (j0 :: bt)).1.get? i = some rm ∧
          r1.closed = rm.closed ∧ r1.closed_at = rm.closed_at := by
      intro i r1 h1
      cases hsc : truthy j0.ats_type && truthy j0.company_name
      · have hres : (upsert_jobs now db (j0 :: bt)).1 = (upsert_mid now db (j0 :: bt)).1 := by
          simp [upsert_jobs, hsc]
        rw [hres] at h1
        exact ⟨r1, h1, rfl, rfl⟩
      · have hres : (upsert_jobs now db (j0 :: bt)).1 =
            applyCloseP now
              (closePred j0.ats_type j0.company_name (incoming_extids (j0 :: bt)))
              db (upsert_mid now db (j0 :: bt)).1 := by
          simp [upsert_jobs, hsc]
        rw [hres, applyCloseP_get?] at h1
        cases hm2 : (upsert_mid now db (j0 :: bt)).1.get? i with
        | none => rw [hm2] at h1; exact Option.noConfusion h1
        | some rm =>
          rw [hm2] at h1
          simp only [Option.map_some'] at h1
          injection h1 with h1
          refine ⟨rm, rfl, ?_, ?_⟩
          · rw [← h1, closeMut_closed]
          · rw [← h1, closeMut_closed_at]
    constructor
    · intro i r0 r1 h0 h1
      rcases hfinal i r1 h1 with ⟨rm, hm2, hc, hca⟩
      have := (hmidfacts i rm hm2).1 r0 h0
      exact ⟨by rw [hc, this.1], by rw [hca, this.2]⟩
    · intro i r hlen h1
      rcases hfinal i r h1 with ⟨rm, hm2, hc, hca⟩
      have := (hmidfacts i rm hm2).2 hlen
      exact ⟨by rw [hc, this.1], by rw [hca, this.2]⟩

/-- Witness for C10: on a store whose one row is explicitly closed
(`closed = true`, `closed_at = 4`), reconciling a fresh one-record batch
leaves that row's `closed`/`closed_at` untouched and creates the new row
with `closed = false`, `closed_at = null`. -/
theorem c10_closed_frame_witness :
    ((upsert_jobs 9 [{ mkRow 0 (vrec 7) with closed := true, closed_at := some 4 }]
        [vrec 1]).1.get? 0).map (fun r => (r.closed, r.closed_at)) =
      some (true, some 4) ∧
    ((upsert_jobs 9 [{ mkRow 0 (vrec 7) with closed := true, closed_at := some 4 }]
        [vrec 1]).1.get? 1).map (fun r => (r.closed, r.closed_at)) =
      some (false, none) := by
  constructor
  · cases hx : (upsert_jobs 9
        [{ mkRow 0 (vrec 7) with closed := true, closed_at := some 4 }]
        [vrec 1]).1.get? 0 with
    | none => exact absurd hx (by decide)
    | some r1 =>
      have h := (c10_closed_frame 9
          [{ mkRow 0 (vrec 7) with closed := true, closed_at := some 4 }]
          [vrec 1]).1 0 _ r1 rfl hx
      simp only [Option.map_some']
      rw [h.1, h.2]
  · cases hx : (upsert_jobs 9
        [{ mkRow 0 (vrec 7) with closed := true, closed_at := some 4 }]
        [vrec 1]).1.get? 1 with
    | none => exact absurd hx (by decide)
    | some r1 =>
      have h := (c10_closed_frame 9
          [{ mkRow 0 (vrec 7) with closed := true, closed_at := some 4 }]
          [vrec 1]).2 1 r1 (by decide) hx
      simp only [Option.map_some']
      rw [h.1, h.2]

/-! ## C8 — `hash_job` is deterministic and insertion-order independent -/

theorem sorted_keyLt_of_nodup (l : List (String × Option String))
    (hs : List.Sorted keyLe l) (hn : (l.map Prod.fst).Nodup) :
    List.Sorted keyLt l := by
  have hne : l.Pairwise (fun p q => p.1 ≠ q.1) := List.pairwise_map.mp hn
  have hand := List.Pairwise.and hs hne
  exact hand.imp (fun h => lt_of_le_of_ne h.1 h.2)

/-- C8: `hash_job` (`utils/delta.py`) serializes the job dict with
`json.dumps(job, sort_keys=True)` before hashing, so it is a function of the
key/value *set*: two job dicts holding exactly the same key-value pairs hash
identically regardless of the order the keys were inserted in, and hashing
the same dict twice gives the same value. -/
theorem c8_hash_job_canonical (d1 d2 : JobDict)
    (hn1 : (d1.map Prod.fst).Nodup) (hn2 : (d2.map Prod.fst).Nodup)
    (hmem : ∀ p, p ∈ d1 ↔ p ∈ d2) :
    hash_job d1 = hash_job d2 ∧ hash_job d1 = hash_job d1 := by
  refine ⟨?_, rfl⟩
  have hd1 : d1.Nodup := hn1.of_map
  have hd2 : d2.Nodup := hn2.of_map
  have hperm : d1.Perm d2 := (List.perm_ext_iff_of_nodup hd1 hd2).mpr hmem
  have hsp : (List.insertionSort keyLe d1).Perm (List.insertionSort keyLe d2) :=
    ((List.perm_insertionSort keyLe d1).trans hperm).trans
      (List.perm_insertionSort keyLe d2).symm
  have hs1 : List.Sorted keyLe (List.insertionSort keyLe d1) :=
    List.sorted_insertionSort keyLe d1
  have hs2 : List.Sorted keyLe (List.insertionSort keyLe d2) :=
    List.sorted_insertionSort keyLe d2
  have hn1s : ((List.insertionSort keyLe d1).map Prod.fst).Nodup := by
    have hp : ((List.insertionSort keyLe d1).map Prod.fst).Perm (d1.map Prod.fst) :=
      (List.perm_insertionSort keyLe d1).map Prod.fst
    exact hp.nodup_iff.mpr hn1
  have hn2s : ((List.insertionSort keyLe d2).map Prod.fst).Nodup := by
    have hp : ((List.insertionSort keyLe d2).map Prod.fst).Perm (d2.map Prod.fst) :=
      (List.perm_insertionSort keyLe d2).map Prod.fst
    exact hp.nodup_iff.mpr hn2
  have heq : List.insertionSort keyLe d1 = List.insertionSort keyLe d2 :=
    List.eq_of_perm_of_sorted hsp
      (sorted_keyLt_of_nodup _ hs1 hn1s) (sorted_keyLt_of_nodup _ hs2 hn2s)
  unfold hash_job dumpsSortKeys
  rw [heq]

/-- Witness for C8: the same two key-value pairs inserted in opposite orders
hash to the same value. -/
theorem c8_hash_job_canonical_witness :
    hash_job [("company", some "Acme"), ("title", some "Engineer")] =
      hash_job [("title", some "Engineer"), ("company", some "Acme")] :=
  (c8_hash_job_canonical
    [("company", some "Acme"), ("title", some "Engineer")]
    [("title", some "Engineer"), ("company", some "Acme")]
    (by decide) (by decide)
    (by
      intro p
      simp only [List.mem_cons, List.not_mem_nil, or_false]
      tauto)).1

/-! ## C5 — reappearance of a closed job -/

/-- Counterexample to C5 as stated: the claim quantifies over *every* catalog
entry with `is_active = false`, but for an entry whose `external_id` is the
empty string, the incoming identical record is dropped from
`incoming_extids`, the preload misses the stored row, and the loop stages a
second `("keka", "")` row.  The commit's flush then violates
`uq_jobs_ats_external` and the call raises `IntegrityError`: the transaction
rolls back, nothing is counted as `updated`, and the entry stays
`is_active = false` — the session had even counted the reappearance as
`new`. -/
theorem c5_counterexample :
    (upsert_jobs_tx ⟨false, false, false⟩ 3 [closedEmptyIdRow] [emptyIdRec]).2 =
      Except.error "IntegrityError" ∧
    (upsert_jobs_tx ⟨false, false, false⟩ 3 [closedEmptyIdRow] [emptyIdRec]).1 =
      [closedEmptyIdRow] ∧
    (upsert_jobs 3 [closedEmptyIdRow] [emptyIdRec]).2.new = 1 :=
  ⟨rfl, rfl, rfl⟩

/-! ## C2 / C4 — counterexamples from empty external ids -/

/-- Counterexample to C2 as stated: a record with `external_id = ""` is *not*
dropped.  On an empty store, the batch of one malformed plus nine valid
records does not report the same counts as the nine valid records alone
(`new` is 10, not 9), and the final store contains a row with
`external_id = ""` — the malformed record was inserted (and stays active:
the closure query cannot see it). -/
theorem c2_counterexample :
    ¬ ((upsert_jobs 5 [] malformedBatch10).2 = (upsert_jobs 5 [] validBatch9).2 ∧
      ∀ r ∈ (upsert_jobs 5 [] malformedBatch10).1, r.external_id ≠ some "") := by
  intro hc
  have h10 : (upsert_jobs 5 [] malformedBatch10).2.new = 10 := by rfl
  rw [hc.1] at h10
  have h9 : (upsert_jobs 5 [] validBatch9).2.new = 9 := by rfl
  rw [h9] at h10
  exact absurd h10 (by decide)

/-- Counterexample to C4 as stated: idempotence fails for a batch containing
a record with `external_id = ""`.  The first fault-free call on the empty
store commits a `("kekahr", "")` row and returns `new = 1`.  The second
identical call cannot find that row through `incoming_extids` (which drops
empty ids), so its loop stages a *second* `("kekahr", "")` insert; the
commit's flush then violates `uq_jobs_ats_external`, the call raises
`IntegrityError` instead of yielding `new = 0`, and the transaction rolls
back, leaving the store exactly as after the first run. -/
theorem c4_counterexample :
    (upsert_jobs_tx ⟨false, false, false⟩ 1 [] [mrec]).2 =
      Except.ok ⟨1, 0, 0⟩ ∧
    (upsert_jobs_tx ⟨false, false, false⟩ 2
        (upsert_jobs_tx ⟨false, false, false⟩ 1 [] [mrec]).1 [mrec]).2 =
      Except.error "IntegrityError" ∧
    (upsert_jobs_tx ⟨false, false, false⟩ 2
        (upsert_jobs_tx ⟨false, false, false⟩ 1 [] [mrec]).1 [mrec]).1 =
      (upsert_jobs_tx ⟨false, false, false⟩ 1 [] [mrec]).1 :=
  ⟨rfl, rfl, rfl⟩

/-! ## C3 — the closure pass closes exactly the absent committed entries of the batch scope -/

theorem rowPass_elim (ats : Option String) (ids : List String) (r : Job)
    (h : rowPass ats ids r = true) :
    r.ats_type = ats ∧ ∃ e, r.external_id = some e ∧ e ∈ ids := by
  unfold rowPass at h
  cases hre : r.external_id with
  | none => rw [hre] at h; simp at h
  | some e =>
    rw [hre] at h
    simp at h
    exact ⟨h.1, e, rfl, h.2⟩

theorem closePred_elim (a0 c : Option String) (ids : List String) (r : Job)
    (h : closePred a0 c ids r = true) :
    r.ats_type = a0 ∧ r.company_name = c ∧
      (∃ e, r.external_id = some e ∧ e ∉ ids) ∧ r.is_active = true := by
  unfold closePred at h
  cases hre : r.external_id with
  | none => rw [hre] at h; simp at h
  | some e =>
    rw [hre] at h
    simp at h
    exact ⟨h.1.1.1, h.1.1.2, ⟨e, rfl, h.1.2⟩, h.2⟩

/-- A row selected by the closure query is never a preload hit: its committed
`external_id` lies outside the incoming id set, while every `existing_map`
target has its id inside that set.  Hence no record of the batch collapses
onto a selected position. -/
theorem hitsAt_nil_of_closePred (db : Store) (a0 c : Option String)
    (ids : List String) (i : Nat) (r0 : Job) (b : List Record)
    (hget : db.get? i = some r0)
    (hpred : closePred a0 c ids r0 = true) :
    hitsAt (buildEMap db a0 ids) i b = [] := by
  unfold hitsAt
  rw [List.filter_eq_nil_iff]
  intro j hj hbeq
  have hlk : lookupLast (buildEMap db a0 ids) j.key = some i := by
    simpa using hbeq
  obtain ⟨r, hr, hrpass, -⟩ := buildEMap_target db a0 ids j.key i hlk
  rw [hget] at hr
  injection hr with hr
  subst hr
  obtain ⟨-, e, hre, hein⟩ := rowPass_elim a0 ids r0 hrpass
  obtain ⟨-, -, ⟨e2, hre2, hnotin⟩, -⟩ := closePred_elim a0 c ids r0 hpred
  rw [hre] at hre2
  injection hre2 with hre2
  rw [← hre2] at hnotin
  exact hnotin hein

/-- C3: under the batch scope `(j0.ats_type, j0.company_name)` with truthy
values, the closure pass selects exactly the **committed** rows satisfying
`closePred` — same scope, non-null `external_id` absent from the batch id
set, committed `is_active = true` — and sets `is_active := false`,
`last_seen_at := now` on precisely those positions, leaving their every other
column (`first_seen_at` included) untouched; every other position of the
post-upsert store passes through unchanged — in particular rows of any other
company or source system even when their ids collide with the batch, and
every row appended by this run, which the closure query of the
`autoflush=False` session cannot see; and `closed` is the number of selected
committed rows. -/
theorem c3_closure_scope (now : Nat) (db : Store) (j0 : Record) (bt : List Record)
    (hscope : ∀ j ∈ (j0 :: bt), j.ats_type = j0.ats_type ∧
      j.company_name = j0.company_name)
    (htruthy : (truthy j0.ats_type && truthy j0.company_name) = true) :
    (∀ i r0, db.get? i = some r0 →
        closePred j0.ats_type j0.company_name (incoming_extids (j0 :: bt)) r0 = true →
        (upsert_jobs now db (j0 :: bt)).1.get? i =
          some { r0 with is_active := false, last_seen_at := now }) ∧
    (∀ i r0 rm, db.get? i = some r0 →
        closePred j0.ats_type j0.company_name (incoming_extids (j0 :: bt)) r0 = false →
        (upsert_mid now db (j0 :: bt)).1.get? i = some rm →
        (upsert_jobs now db (j0 :: bt)).1.get? i = some rm) ∧
    (∀ i rm, db.length ≤ i →
        (upsert_mid now db (j0 :: bt)).1.get? i = some rm →
        (upsert_jobs now db (j0 :: bt)).1.get? i = some rm) ∧
    ((upsert_jobs now db (j0 :: bt)).2.closed =
      db.countP (closePred j0.ats_type j0.company_name (incoming_extids (j0 :: bt)))) := by
  have hres1 : (upsert_jobs now db (j0 :: bt)).1 =
      applyCloseP now
        (closePred j0.ats_type j0.company_name (incoming_extids (j0 :: bt)))
        db (upsert_mid now db (j0 :: bt)).1 := by
    simp [upsert_jobs, htruthy]
  have hres2 : (upsert_jobs now db (j0 :: bt)).2.closed =
      db.countP (closePred j0.ats_type j0.company_name (incoming_extids (j0 :: bt))) := by
    simp [upsert_jobs, htruthy]
  have hm := upsert_mid_char now db j0 bt
  have hm1 : (upsert_mid now db (j0 :: bt)).1 =
      collapsedFrom now (buildEMap db j0.ats_type (incoming_extids (j0 :: bt)))
          (j0 :: bt) 0 db ++
        (missesOf (buildEMap db j0.ats_type (incoming_extids (j0 :: bt)))
            (j0 :: bt)).map (mkRow now) := by
    rw [hm]
  refine ⟨?_, ?_, ?_, hres2⟩
  · intro i r0 hget hpred
    have hi : i < db.length := (List.get?_eq_some.mp hget).choose
    have hhit : hitsAt (buildEMap db j0.ats_type (incoming_extids (j0 :: bt)))
        i (j0 :: bt) = [] :=
      hitsAt_nil_of_closePred db j0.ats_type j0.company_name
        (incoming_extids (j0 :: bt)) i r0 (j0 :: bt) hget hpred
    have hmi : (upsert_mid now db (j0 :: bt)).1.get? i = some r0 := by
      rw [hm1, List.get?_append (by rw [collapsedFrom_length]; exact hi),
        collapsedFrom_get?, Nat.zero_add, hget, Option.map_some', hhit]
      rfl
    rw [hres1, applyCloseP_get?, hmi, Option.map_some',
      closeSelP_some _ _ _ _ hget, hpred, closeMut_true]
  · intro i r0 rm hget hpred hmid
    rw [hres1, applyCloseP_get?, hmid, Option.map_some',
      closeSelP_some _ _ _ _ hget, hpred, closeMut_false]
  · intro i rm hle hmid
    rw [hres1, applyCloseP_get?, hmid, Option.map_some',
      closeSelP_none _ _ _ (List.get?_eq_none.mpr hle), closeMut_false]

/-- Witness for C3: reconciling `[J1]` against a store holding only the
committed stale `(kekahr, AcmeCo, "OLD")` row closes exactly that row —
`is_active` false, `last_seen_at` bumped to the run time, `first_seen_at`
kept — and reports `closed = 1`. -/
theorem c3_closure_scope_witness :
    (upsert_jobs 7 [staleRow] [vrec 1]).1.get? 0 =
      some { staleRow with is_active := false, last_seen_at := 7 } ∧
    (upsert_jobs 7 [staleRow] [vrec 1]).2.closed = 1 := by
  have h := c3_closure_scope 7 [staleRow] (vrec 1) []
    (by
      intro j hj
      rcases List.mem_singleton.mp hj with rfl
      exact ⟨rfl, rfl⟩)
    (by decide)
  constructor
  · exact h.1 0 staleRow rfl (by decide)
  · rw [h.2.2.2]
    rfl

/-! ## Shared lemmas for the amended C2 and C4 -/

/-- Filtering a batch down to its truthy-id records does not change the
collected `incoming_extids`. -/
theorem incoming_extids_filter (b : List Record) :
    incoming_extids (b.filter (fun j => truthy j.external_id)) =
      incoming_extids b := by
  induction b with
  | nil => rfl
  | cons j bt ih =>
    rw [List.filter_cons]
    cases hv : truthy j.external_id
    · simp only [Bool.false_eq_true, if_false]
      rw [ih]
      show incoming_extids bt = incoming_extids (j :: bt)
      unfold incoming_extids
      rw [List.filterMap_cons]
      cases hext : j.external_id with
      | none => rfl
      | some x =>
        unfold truthy at hv
        rw [hext] at hv
        simp only [ne_eq, decide_eq_false_iff_not, Decidable.not_not] at hv
        simp [hv]
    · simp only [if_true]
      unfold incoming_extids
      rw [List.filterMap_cons, List.filterMap_cons]
      cases hext : j.external_id with
      | none =>
        unfold truthy at hv
        rw [hext] at hv
        exact Bool.noConfusion hv
      | some x =>
        unfold truthy at hv
        rw [hext] at hv
        simp only [ne_eq, decide_eq_true_eq] at hv
        simp only [if_neg hv]
        exact congrArg _ ih

/-- A record with the empty external id can never be found in the preloaded
`existing_map` of a same-source batch: every map entry comes from a row whose
`external_id` is one of the (non-empty) incoming ids, and the key strings
`f"{a}|{y}"` and `f"{a}|{}"` then differ. -/
theorem lookup_malformed_none (db : Store) (a : Option String) (b : List Record)
    (j : Record) (hja : j.ats_type = a) (hje : j.external_id = some "") :
    lookupLast (buildEMap db a (incoming_extids b)) j.key = none := by
  apply lookupLast_buildEMap_none
  intro i r hget hpass
  unfold rowPass at hpass
  rw [Bool.and_eq_true, beq_iff_eq] at hpass
  rcases hpass with ⟨hrats, hrext⟩
  cases hrx : r.external_id with
  | none => rw [hrx] at hrext; exact Bool.noConfusion hrext
  | some y =>
    rw [hrx] at hrext
    have hy : y ∈ incoming_extids b := by
      simp only at hrext
      exact List.mem_of_elem_eq_true hrext
    intro hk
    have hkey : keyOf a (some y) = keyOf a (some "") := by
      unfold Job.key at hk
      unfold Record.key at hk
      rw [hrats, hrx] at hk
      rw [hja, hje] at hk
      exact hk
    have := keyOf_right_inj a (some y) (some "") hkey
    simp only [optStr_some] at this
    exact ne_empty_of_mem_extids b y hy this

/-- Splitting a list length by a predicate and its pointwise complement. -/
theorem length_split_by {α : Type} (p q : α → Bool) :
    ∀ (l : List α), (∀ j ∈ l, q j = !p j) →
      l.length = l.countP p + l.countP q := by
  intro l
  induction l with
  | nil => intro _; rfl
  | cons x xs ih =>
    intro h
    rw [List.countP_cons, List.countP_cons, List.length_cons]
    have hx := h x (List.mem_cons_self _ _)
    have hr := ih (fun j hj => h j (List.mem_cons_of_mem _ hj))
    cases hp : p x
    · rw [hp] at hx
      simp only [Bool.not_false] at hx
      rw [hx]
      rw [if_neg (by decide : ¬(false = true)), if_pos (rfl : true = true)]
      omega
    · rw [hp] at hx
      simp only [Bool.not_true] at hx
      rw [hx]
      rw [if_pos (rfl : true = true), if_neg (by decide : ¬(false = true))]
      omega

/-- C2 (amended): records with empty `external_id` are *not* dropped.  For a
batch over one truthy `(a, c)` scope containing at least one valid record,
the run processes the valid records exactly as if the malformed (empty-id)
records were absent — original rows receive the same treatment, the new valid
rows are the same, `updated` and `closed` are unchanged — while every
malformed record is additionally staged as its own fresh row and counted in
`new` once per occurrence.  The closure query of the `autoflush=False`
session cannot see the staged rows, so they are committed `is_active = true`
with `last_seen_at = now` and the `closed` count ignores them.  The batch
does not fail at the session level (the commit *does* fail with
`IntegrityError` when the scope already holds a committed empty-id row from
a previous malformed run — see the C4 counterexample). -/
theorem c2_malformed_inserted (now : Nat) (db : Store) (batch : List Record)
    (a c : String)
    (hats : ∀ j ∈ batch, j.ats_type = some a)
    (hcomp : ∀ j ∈ batch, j.company_name = some c)
    (ha : a ≠ "") (hc : c ≠ "")
    (hval : ∀ j ∈ batch, j.external_id = some "" ∨ truthy j.external_id = true)
    (hsome : ∃ j ∈ batch, truthy j.external_id = true) :
    (upsert_jobs now db batch).2.new =
      (upsert_jobs now db (batch.filter (fun j => truthy j.external_id))).2.new +
        batch.countP (fun j => j.external_id == some "") ∧
    (upsert_jobs now db batch).2.updated =
      (upsert_jobs now db (batch.filter (fun j => truthy j.external_id))).2.updated ∧
    (upsert_jobs now db batch).2.closed =
      (upsert_jobs now db (batch.filter (fun j => truthy j.external_id))).2.closed ∧
    (∀ i, i < db.length →
      (upsert_jobs now db batch).1.get? i =
        (upsert_jobs now db (batch.filter (fun j => truthy j.external_id))).1.get? i) ∧
    (((upsert_jobs now db batch).1.drop db.length).filter
        (fun r => !(r.external_id == some "")) =
      (upsert_jobs now db
        (batch.filter (fun j => truthy j.external_id))).1.drop db.length) ∧
    (∀ r ∈ (upsert_jobs now db batch).1.drop db.length,
      r.external_id = some "" → r.is_active = true ∧ r.last_seen_at = now) := by
  cases batch with
  | nil =>
    rcases hsome with ⟨j, hj, -⟩
    cases hj
  | cons j0 bt =>
    have hj0a : j0.ats_type = some a := hats j0 (List.mem_cons_self _ _)
    have hj0c : j0.company_name = some c := hcomp j0 (List.mem_cons_self _ _)
    have htr : (truthy j0.ats_type && truthy j0.company_name) = true := by
      rw [hj0a, hj0c]
      simp [truthy, ha, hc]
    rcases hsome with ⟨jv, hjv, hjvval⟩
    have hjvV : jv ∈ (j0 :: bt).filter (fun j => truthy j.external_id) :=
      List.mem_filter.mpr ⟨hjv, hjvval⟩
    cases hV : (j0 :: bt).filter (fun j => truthy j.external_id) with
    | nil => rw [hV] at hjvV; cases hjvV
    | cons v0 vt =>
    have hv0mem : v0 ∈ (j0 :: bt) := by
      have hm : v0 ∈ (j0 :: bt).filter (fun j => truthy j.external_id) := by
        rw [hV]
        exact List.mem_cons_self _ _
      exact List.mem_of_mem_filter hm
    have hv0a : v0.ats_type = some a := hats v0 hv0mem
    have hv0c : v0.company_name = some c := hcomp v0 hv0mem
    have htrV : (truthy v0.ats_type && truthy v0.company_name) = true := by
      rw [hv0a, hv0c]
      simp [truthy, ha, hc]
    have hidsV : incoming_extids (v0 :: vt) = incoming_extids (j0 :: bt) := by
      rw [← hV]
      exact incoming_extids_filter (j0 :: bt)
    have hemapV : buildEMap db v0.ats_type (incoming_extids (v0 :: vt)) =
        buildEMap db j0.ats_type (incoming_extids (j0 :: bt)) := by
      rw [hv0a, hj0a, hidsV]
    have hmal_miss : ∀ j ∈ (j0 :: bt), j.external_id = some "" →
        lookupLast (buildEMap db j0.ats_type (incoming_extids (j0 :: bt)))
          j.key = none := by
      intro j hj hje
      exact lookup_malformed_none db j0.ats_type (j0 :: bt) j
        ((hats j hj).trans hj0a.symm) hje
    have hhits : ∀ i, 0 ≤ i →
        hitsAt (buildEMap db j0.ats_type (incoming_extids (j0 :: bt))) i (j0 :: bt) =
        hitsAt (buildEMap db j0.ats_type (incoming_extids (j0 :: bt))) i (v0 :: vt) := by
      intro i _
      rw [← hV]
      unfold hitsAt
      rw [List.filter_filter]
      apply List.filter_congr
      intro j hj
      cases hp : (lookupLast (buildEMap db j0.ats_type (incoming_extids (j0 :: bt)))
          j.key == some i)
      · simp
      · have hlk : lookupLast (buildEMap db j0.ats_type (incoming_extids (j0 :: bt)))
            j.key = some i := by rwa [beq_iff_eq] at hp
        have hvj : truthy j.external_id = true := by
          rcases hval j hj with hje | hv
          · rw [hmal_miss j hj hje] at hlk
            exact Option.noConfusion hlk
          · exact hv
        simp [hvj]
    have hcfus := collapsedFrom_congr now
      (buildEMap db j0.ats_type (incoming_extids (j0 :: bt))) (j0 :: bt) (v0 :: vt)
      db 0 hhits
    have hmissV : missesOf (buildEMap db j0.ats_type (incoming_extids (j0 :: bt)))
        (v0 :: vt) =
        (missesOf (buildEMap db j0.ats_type (incoming_extids (j0 :: bt)))
          (j0 :: bt)).filter (fun j => truthy j.external_id) := by
      rw [← hV]
      unfold missesOf
      rw [List.filter_filter, List.filter_filter]
      apply List.filter_congr
      intro j _
      exact Bool.and_comm _ _
    have hmal_not : ∀ j ∈ (j0 :: bt),
        (!truthy j.external_id) = (j.external_id == some "") := by
      intro j hj
      rcases hval j hj with hje | hv
      · rw [hje]
        simp [truthy]
      · rw [hv]
        cases hext : j.external_id with
        | none =>
          rw [hext] at hv
          exact absurd hv (by simp [truthy])
        | some x =>
          unfold truthy at hv
          rw [hext] at hv
          simp only [ne_eq, decide_eq_true_eq] at hv
          simp [hv]
    have hcntM : (missesOf (buildEMap db j0.ats_type (incoming_extids (j0 :: bt)))
          (j0 :: bt)).countP (fun j => j.external_id == some "") =
        (j0 :: bt).countP (fun j => j.external_id == some "") := by
      show ((j0 :: bt).filter
          (fun j => (lookupLast (buildEMap db j0.ats_type
            (incoming_extids (j0 :: bt))) j.key).isNone)).countP _ = _
      rw [List.countP_filter]
      apply List.countP_congr
      intro j hj
      constructor
      · intro h
        exact ((Bool.and_eq_true _ _).mp h).1
      · intro h
        refine (Bool.and_eq_true _ _).mpr ⟨h, ?_⟩
        have hje : j.external_id = some "" := by
          rw [beq_iff_eq] at h
          exact h
        rw [hmal_miss j hj hje]
        rfl
    have hlenmiss : (missesOf (buildEMap db j0.ats_type (incoming_extids (j0 :: bt)))
          (j0 :: bt)).length =
        (missesOf (buildEMap db j0.ats_type (incoming_extids (j0 :: bt)))
          (v0 :: vt)).length +
          (j0 :: bt).countP (fun j => j.external_id == some "") := by
      rw [hmissV, ← List.countP_eq_length_filter]
      have hsplit := length_split_by (fun j => truthy j.external_id)
        (fun j => j.external_id == some "")
        (missesOf (buildEMap db j0.ats_type (incoming_extids (j0 :: bt))) (j0 :: bt))
        (fun j hj => (hmal_not j (List.mem_of_mem_filter hj)).symm)
      rw [hsplit, hcntM]
    have hcharB := upsert_mid_char now db j0 bt
    have hcharV0 := upsert_mid_char now db v0 vt
    have hcharV : upsert_mid now db (v0 :: vt) =
        (collapsedFrom now (buildEMap db j0.ats_type (incoming_extids (j0 :: bt)))
            (v0 :: vt) 0 db ++
          (missesOf (buildEMap db j0.ats_type (incoming_extids (j0 :: bt)))
              (v0 :: vt)).map (mkRow now),
         (missesOf (buildEMap db j0.ats_type (incoming_extids (j0 :: bt)))
             (v0 :: vt)).length,
         updSumFrom now (buildEMap db j0.ats_type (incoming_extids (j0 :: bt)))
           (v0 :: vt) 0 db) := by
      rw [hcharV0, hemapV]
    have hnewB : (upsert_jobs now db (j0 :: bt)).2.new =
        (missesOf (buildEMap db j0.ats_type (incoming_extids (j0 :: bt)))
          (j0 :: bt)).length := by
      simp [upsert_jobs, htr, hcharB]
    have hnewV : (upsert_jobs now db (v0 :: vt)).2.new =
        (missesOf (buildEMap db j0.ats_type (incoming_extids (j0 :: bt)))
          (v0 :: vt)).length := by
      simp [upsert_jobs, htrV, hcharV]
    have hupdB : (upsert_jobs now db (j0 :: bt)).2.updated =
        updSumFrom now (buildEMap db j0.ats_type (incoming_extids (j0 :: bt)))
          (j0 :: bt) 0 db := by
      simp [upsert_jobs, htr, hcharB]
    have hupdV : (upsert_jobs now db (v0 :: vt)).2.updated =
        updSumFrom now (buildEMap db j0.ats_type (incoming_extids (j0 :: bt)))
          (v0 :: vt) 0 db := by
      simp [upsert_jobs, htrV, hcharV]
    have hpredVeq : closePred v0.ats_type v0.company_name (incoming_extids (v0 :: vt)) =
        closePred j0.ats_type j0.company_name (incoming_extids (j0 :: bt)) := by
      rw [hv0a, hj0a, hv0c, hj0c, hidsV]
    have hclB : (upsert_jobs now db (j0 :: bt)).2.closed =
        db.countP (closePred j0.ats_type j0.company_name
          (incoming_extids (j0 :: bt))) := by
      simp [upsert_jobs, htr]
    have hclV : (upsert_jobs now db (v0 :: vt)).2.closed =
        db.countP (closePred v0.ats_type v0.company_name
          (incoming_extids (v0 :: vt))) := by
      simp [upsert_jobs, htrV]
    have hresB : (upsert_jobs now db (j0 :: bt)).1 =
        applyCloseP now
          (closePred j0.ats_type j0.company_name (incoming_extids (j0 :: bt))) db
          (collapsedFrom now (buildEMap db j0.ats_type (incoming_extids (j0 :: bt)))
              (j0 :: bt) 0 db ++
            (missesOf (buildEMap db j0.ats_type (incoming_extids (j0 :: bt)))
                (j0 :: bt)).map (mkRow now)) := by
      simp [upsert_jobs, htr, hcharB]
    have hresV : (upsert_jobs now db (v0 :: vt)).1 =
        applyCloseP now
          (closePred j0.ats_type j0.company_name (incoming_extids (j0 :: bt))) db
          (collapsedFrom now (buildEMap db j0.ats_type (incoming_extids (j0 :: bt)))
              (v0 :: vt) 0 db ++
            (missesOf (buildEMap db j0.ats_type (incoming_extids (j0 :: bt)))
                (v0 :: vt)).map (mkRow now)) := by
      simp [upsert_jobs, htrV, hcharV, hpredVeq]
    have hdropB : (upsert_jobs now db (j0 :: bt)).1.drop db.length =
        (missesOf (buildEMap db j0.ats_type (incoming_extids (j0 :: bt)))
            (j0 :: bt)).map (mkRow now) := by
      rw [hresB, applyCloseP_drop]
      have hlenB : (collapsedFrom now (buildEMap db j0.ats_type
          (incoming_extids (j0 :: bt))) (j0 :: bt) 0 db).length = db.length :=
        collapsedFrom_length now _ (j0 :: bt) db 0
      rw [← hlenB]
      exact List.drop_left _ _
    have hdropV : (upsert_jobs now db (v0 :: vt)).1.drop db.length =
        (missesOf (buildEMap db j0.ats_type (incoming_extids (j0 :: bt)))
            (v0 :: vt)).map (mkRow now) := by
      rw [hresV, applyCloseP_drop]
      have hlenV : (collapsedFrom now (buildEMap db j0.ats_type
          (incoming_extids (j0 :: bt))) (v0 :: vt) 0 db).length = db.length :=
        collapsedFrom_length now _ (v0 :: vt) db 0
      rw [← hlenV]
      exact List.drop_left _ _
    refine ⟨?_, ?_, ?_, ?_, ?_, ?_⟩
    · rw [hnewB, hnewV, hlenmiss]
    · rw [hupdB, hupdV, hcfus.2]
    · rw [hclB, hclV, hv0a, hj0a, hv0c, hj0c, hidsV]
    · intro i hi
      have hiB : i < (collapsedFrom now (buildEMap db j0.ats_type
          (incoming_extids (j0 :: bt))) (j0 :: bt) 0 db).length := by
        rw [collapsedFrom_length]
        exact hi
      have hiV : i < (collapsedFrom now (buildEMap db j0.ats_type
          (incoming_extids (j0 :: bt))) (v0 :: vt) 0 db).length := by
        rw [collapsedFrom_length]
        exact hi
      have hmid_eq : (collapsedFrom now (buildEMap db j0.ats_type
            (incoming_extids (j0 :: bt))) (j0 :: bt) 0 db ++
          (missesOf (buildEMap db j0.ats_type (incoming_extids (j0 :: bt)))
              (j0 :: bt)).map (mkRow now)).get? i =
          (collapsedFrom now (buildEMap db j0.ats_type
            (incoming_extids (j0 :: bt))) (v0 :: vt) 0 db ++
          (missesOf (buildEMap db j0.ats_type (incoming_extids (j0 :: bt)))
              (v0 :: vt)).map (mkRow now)).get? i := by
        rw [List.get?_append hiB, List.get?_append hiV, hcfus.1]
      rw [hresB, hresV, applyCloseP_get?, applyCloseP_get?, hmid_eq]
    · rw [hdropB, hdropV, List.filter_map]
      have hfeq : (missesOf (buildEMap db j0.ats_type (incoming_extids (j0 :: bt)))
            (j0 :: bt)).filter
          ((fun r => !(r.external_id == some "")) ∘ mkRow now) =
          (missesOf (buildEMap db j0.ats_type (incoming_extids (j0 :: bt)))
            (j0 :: bt)).filter (fun j => truthy j.external_id) := by
        apply List.filter_congr
        intro j hj
        have hjb : j ∈ (j0 :: bt) := List.mem_of_mem_filter hj
        show (!((mkRow now j).external_id == some "")) = truthy j.external_id
        have hmke : (mkRow now j).external_id = j.external_id := rfl
        rw [hmke, ← hmal_not j hjb, Bool.not_not]
      rw [hfeq, ← hmissV]
    · intro r hr hrext
      rw [hdropB] at hr
      rcases List.mem_map.mp hr with ⟨j, hjm, hje⟩
      rw [← hje]
      exact ⟨rfl, rfl⟩
/-- Witness for the amended C2 on the one-malformed-plus-nine-valid batch:
`new` exceeds the malformed-free count by exactly the one malformed record. -/
theorem c2_malformed_inserted_witness :
    (upsert_jobs 5 [] malformedBatch10).2.new =
      (upsert_jobs 5 [] (malformedBatch10.filter (fun j => truthy j.external_id))).2.new +
        malformedBatch10.countP (fun j => j.external_id == some "") :=
  (c2_malformed_inserted 5 [] malformedBatch10 "kekahr" "AcmeCo"
    (by decide) (by decide) (by decide) (by decide) (by decide)
    ⟨vrec 1, by decide, by decide⟩).1

/-! ## Helpers about batches with pairwise-distinct external ids -/

theorem pairwise_ext_pos (l : List Record)
    (hpw : l.Pairwise (fun p q => p.external_id ≠ q.external_id)) :
    ∀ n1 n2 v1 v2, l.get? n1 = some v1 → l.get? n2 = some v2 →
      v1.external_id = v2.external_id → n1 = n2 := by
  intro n1 n2 v1 v2 h1 h2 he
  have hn1 : n1 < l.length := (List.get?_eq_some.mp h1).choose
  have hn2 : n2 < l.length := (List.get?_eq_some.mp h2).choose
  have hv1 : l[n1] = v1 := by
    have h1e : l.get? n1 = some v1 := h1
    rw [List.get?_eq_getElem?, List.getElem?_eq_getElem hn1] at h1e
    injection h1e
  have hv2 : l[n2] = v2 := by
    have h2e : l.get? n2 = some v2 := h2
    rw [List.get?_eq_getElem?, List.getElem?_eq_getElem hn2] at h2e
    injection h2e
  by_contra hne
  rcases Nat.lt_or_ge n1 n2 with hlt | hge
  · have := (List.pairwise_iff_getElem.mp hpw) n1 n2 hn1 hn2 hlt
    rw [hv1, hv2] at this
    exact this he
  · have hlt2 : n2 < n1 := by omega
    have := (List.pairwise_iff_getElem.mp hpw) n2 n1 hn2 hn1 hlt2
    rw [hv1, hv2] at this
    exact this he.symm

theorem pairwise_ext_mem (l : List Record)
    (hpw : l.Pairwise (fun p q => p.external_id ≠ q.external_id))
    (q j : Record) (hq : q ∈ l) (hj : j ∈ l)
    (he : q.external_id = j.external_id) : q = j := by
  rcases List.get_of_mem hq with ⟨⟨nq, hnq⟩, hgq⟩
  rcases List.get_of_mem hj with ⟨⟨nj, hnj⟩, hgj⟩
  have h1 : l.get? nq = some q := by
    rw [List.get?_eq_getElem?, List.getElem?_eq_getElem hnq]
    exact congrArg some hgq
  have h2 : l.get? nj = some j := by
    rw [List.get?_eq_getElem?, List.getElem?_eq_getElem hnj]
    exact congrArg some hgj
  have := pairwise_ext_pos l hpw nq nj q j h1 h2 he
  rw [this] at h1
  rw [h1] at h2
  injection h2

theorem count_eq_one_of_pairwise_ext (l : List Record)
    (hpw : l.Pairwise (fun p q => p.external_id ≠ q.external_id))
    (j : Record) (hj : j ∈ l) : l.count j = 1 := by
  refine le_antisymm ?_ (List.count_pos_iff_mem.mpr hj)
  by_contra h
  push_neg at h
  have hdup : l.Duplicate j := List.duplicate_iff_two_le_count.mpr (by omega)
  have hsub : [j, j].Sublist l := List.duplicate_iff_sublist.mp hdup
  have hpw2 := hpw.sublist hsub
  have := (List.pairwise_cons.mp hpw2).1 j (List.mem_singleton_self j)
  exact this rfl

theorem hitsAt_eq_singleton (E : List (String × Nat)) (batch : List Record)
    (t : Nat) (q0 : Record)
    (hpw : batch.Pairwise (fun p q => p.external_id ≠ q.external_id))
    (hq0 : q0 ∈ batch) (hq0l : lookupLast E q0.key = some t)
    (hkey : ∀ q ∈ batch, lookupLast E q.key = some t →
      q.external_id = q0.external_id) :
    hitsAt E t batch = [q0] := by
  have hcongr : hitsAt E t batch = batch.filter (fun q => q == q0) := by
    unfold hitsAt
    apply List.filter_congr
    intro q hq
    cases hlq : (lookupLast E q.key == some t)
    · cases hbq : (q == q0)
      · rfl
      · exfalso
        have hqq : q = q0 := by rwa [beq_iff_eq] at hbq
        subst hqq
        rw [hq0l] at hlq
        simp at hlq
    · have hlq2 : lookupLast E q.key = some t := by rwa [beq_iff_eq] at hlq
      have : q = q0 := pairwise_ext_mem batch hpw q q0 hq hq0 (hkey q hq hlq2)
      subst this
      simp
  rw [hcongr, List.filter_beq, count_eq_one_of_pairwise_ext batch hpw q0 hq0]
  rfl

theorem uniqueKeys_pos (db : Store) (hu : uniqueKeys db) :
    ∀ i1 i2 r1 r2, db.get? i1 = some r1 → db.get? i2 = some r2 →
      r1.ats_type = r2.ats_type → r1.external_id = r2.external_id → i1 = i2 := by
  intro i1 i2 r1 r2 h1 h2 hats hext
  have hn1 : i1 < db.length := (List.get?_eq_some.mp h1).choose
  have hn2 : i2 < db.length := (List.get?_eq_some.mp h2).choose
  have hv1 : db[i1] = r1 := by
    have h1e : db.get? i1 = some r1 := h1
    rw [List.get?_eq_getElem?, List.getElem?_eq_getElem hn1] at h1e
    injection h1e
  have hv2 : db[i2] = r2 := by
    have h2e : db.get? i2 = some r2 := h2
    rw [List.get?_eq_getElem?, List.getElem?_eq_getElem hn2] at h2e
    injection h2e
  by_contra hne
  unfold uniqueKeys at hu
  rcases Nat.lt_or_ge i1 i2 with hlt | hge
  · have := (List.pairwise_iff_getElem.mp hu) i1 i2 hn1 hn2 hlt
    rw [hv1, hv2] at this
    exact this ⟨hats, hext⟩
  · have hlt2 : i2 < i1 := by omega
    have := (List.pairwise_iff_getElem.mp hu) i2 i1 hn2 hn1 hlt2
    rw [hv1, hv2] at this
    exact this ⟨hats.symm, hext.symm⟩

theorem collapse_nil_js (now : Nat) (row : Job) : collapse now row [] = (row, 0) := rfl

theorem collapse_singleton (now : Nat) (row : Job) (q : Record) :
    collapse now row [q] =
      ((updateRow now q row).1, if (updateRow now q row).2 then 1 else 0) := by
  show ((updateRow now q row).1, 0 + if (updateRow now q row).2 then 1 else 0) = _
  rw [Nat.zero_add]

theorem closePred_false_of_mem (a1 c1 : Option String) (ids : List String)
    (r : Job) (x : String) (hre : r.external_id = some x) (hxm : x ∈ ids) :
    closePred a1 c1 ids r = false := by
  unfold closePred
  rw [hre]
  have hc := List.elem_eq_true_of_mem hxm
  simp [hc]
  intro _ _ hxn
  exact absurd hxm hxn

theorem updSumFrom_eq_zero (now : Nat) (E : List (String × Nat)) (b : List Record) :
    ∀ (st : Store) (i0 : Nat),
      (∀ i row, st.get? i = some row →
        (collapse now row (hitsAt E (i0 + i) b)).2 = 0) →
      updSumFrom now E b i0 st = 0 := by
  intro st
  induction st with
  | nil => intro i0 _; rfl
  | cons row rest ih =>
    intro i0 h
    rw [updSumFrom_cons]
    have h0 := h 0 row rfl
    rw [Nat.add_zero] at h0
    rw [h0, Nat.zero_add]
    apply ih (i0 + 1)
    intro i r hr
    have := h (i + 1) r hr
    have harith : i0 + (i + 1) = i0 + 1 + i := by omega
    rw [harith] at this
    exact this

theorem keyOf_some_inj (a : Option String) (x y : String)
    (hk : keyOf a (some x) = keyOf a (some y)) : x = y := by
  have := keyOf_right_inj a _ _ hk
  simpa using this

theorem mkRow_getF (now : Nat) (j : Record) (f : Field) :
    (mkRow now j).getF f = j.get f := by
  cases f <;> rfl

theorem rowPass_true_of (a : String) (ids : List String) (r : Job) (x : String)
    (hra : r.ats_type = some a) (hre : r.external_id = some x) (hx : x ∈ ids) :
    rowPass (some a) ids r = true := by
  unfold rowPass
  rw [hra, hre]
  simp [List.elem_eq_true_of_mem hx]
  exact hx

/-- Full characterization of `upsert_jobs` on a nonempty batch: the result
store is the collapsed prefix plus the fresh rows, each position
post-composed with the closure mutation under a selection function `sel`;
`sel` never selects a position whose committed row fails the close
predicate, and never selects a position beyond the committed store — the
closure query of the `autoflush=False` session cannot see appended rows.
The counts are the misses and the update sum. -/
theorem upsert_jobs_char (now : Nat) (db : Store) (j0 : Record) (bt : List Record) :
    ∃ sel : Nat → Bool,
      (∀ i, ((upsert_jobs now db (j0 :: bt)).1).get? i =
        (((collapsedFrom now (buildEMap db j0.ats_type (incoming_extids (j0 :: bt)))
            (j0 :: bt) 0 db ++
          (missesOf (buildEMap db j0.ats_type (incoming_extids (j0 :: bt)))
              (j0 :: bt)).map (mkRow now)).get? i).map (closeMut now (sel i)))) ∧
      (upsert_jobs now db (j0 :: bt)).2.new =
        (missesOf (buildEMap db j0.ats_type (incoming_extids (j0 :: bt)))
            (j0 :: bt)).length ∧
      (upsert_jobs now db (j0 :: bt)).2.updated =
        updSumFrom now (buildEMap db j0.ats_type (incoming_extids (j0 :: bt)))
          (j0 :: bt) 0 db ∧
      (∀ i r0, db.get? i = some r0 →
        closePred j0.ats_type j0.company_name (incoming_extids (j0 :: bt)) r0
          = false → sel i = false) ∧
      (∀ i, db.length ≤ i → sel i = false) := by
  have hmid := upsert_mid_char now db j0 bt
  have hmid1 : (upsert_mid now db (j0 :: bt)).1 =
      collapsedFrom now (buildEMap db j0.ats_type (incoming_extids (j0 :: bt)))
          (j0 :: bt) 0 db ++
        (missesOf (buildEMap db j0.ats_type (incoming_extids (j0 :: bt)))
            (j0 :: bt)).map (mkRow now) := by
    rw [hmid]
  cases hsc : truthy j0.ats_type && truthy j0.company_name with
  | true =>
    refine ⟨closeSelP
        (closePred j0.ats_type j0.company_name (incoming_extids (j0 :: bt))) db,
      ?_, ?_, ?_, ?_, ?_⟩
    · intro i
      have hres : (upsert_jobs now db (j0 :: bt)).1 =
          applyCloseP now
            (closePred j0.ats_type j0.company_name (incoming_extids (j0 :: bt)))
            db (upsert_mid now db (j0 :: bt)).1 := by
        simp [upsert_jobs, hsc]
      rw [hres, applyCloseP_get?, hmid1]
    · show (upsert_jobs now db (j0 :: bt)).2.new = _
      simp only [upsert_jobs, hmid, hsc, if_true]
    · show (upsert_jobs now db (j0 :: bt)).2.updated = _
      simp only [upsert_jobs, hmid, hsc, if_true]
    · intro i r0 hget hpred
      rw [closeSelP_some _ _ _ _ hget]
      exact hpred
    · intro i hle
      exact closeSelP_none _ _ _ (List.get?_eq_none.mpr hle)
  | false =>
    refine ⟨fun _ => false, ?_, ?_, ?_, fun _ _ _ _ => rfl, fun _ _ => rfl⟩
    · intro i
      have hres : (upsert_jobs now db (j0 :: bt)).1 =
          (upsert_mid now db (j0 :: bt)).1 := by
        simp [upsert_jobs, hsc]
      rw [hres, hmid1]
      cases h : (collapsedFrom now
          (buildEMap db j0.ats_type (incoming_extids (j0 :: bt))) (j0 :: bt) 0 db ++
        (missesOf (buildEMap db j0.ats_type (incoming_extids (j0 :: bt)))
            (j0 :: bt)).map (mkRow now)).get? i <;> rfl
    · show (upsert_jobs now db (j0 :: bt)).2.new = _
      simp only [upsert_jobs, hmid, hsc, Bool.false_eq_true, if_false]
    · show (upsert_jobs now db (j0 :: bt)).2.updated = _
      simp only [upsert_jobs, hmid, hsc, Bool.false_eq_true, if_false]

/-- After one run of `_upsert_jobs` on a batch of well-formed records with a
single `ats_type` and pairwise-distinct external ids, over a store with unique
keys: every batch record owns exactly one row of the result store, carrying
its thirteen fields, active. -/
theorem first_run_rows (now1 : Nat) (db : Store) (a : String) (j0 : Record)
    (bt : List Record)
    (hats : ∀ j ∈ (j0 :: bt), j.ats_type = some a)
    (hext : ∀ j ∈ (j0 :: bt), ∃ x, j.external_id = some x ∧ x ≠ "")
    (hpw : (j0 :: bt).Pairwise (fun p q => p.external_id ≠ q.external_id))
    (hu : uniqueKeys db) :
    ∀ j ∈ (j0 :: bt), ∃ t ρ,
      ((upsert_jobs now1 db (j0 :: bt)).1).get? t = some ρ ∧
      (∀ f, ρ.getF f = j.get f) ∧ ρ.is_active = true ∧
      (∀ i r, ((upsert_jobs now1 db (j0 :: bt)).1).get? i = some r →
        r.ats_type = j.ats_type → r.external_id = j.external_id → i = t) := by
  obtain ⟨sel, hgS, hgnew, hgupd, hselp, hselhi⟩ := upsert_jobs_char now1 db j0 bt
  set ids := incoming_extids (j0 :: bt) with hids
  set E := buildEMap db j0.ats_type ids with hE
  set M := missesOf E (j0 :: bt) with hM
  set CF := collapsedFrom now1 E (j0 :: bt) 0 db with hCF
  have hj0a : j0.ats_type = some a := hats j0 (List.mem_cons_self j0 bt)
  have hCFlen : CF.length = db.length := collapsedFrom_length now1 E (j0 :: bt) db 0
  have hpre : ∀ i, i < db.length → (CF ++ M.map (mkRow now1)).get? i =
      (db.get? i).map (fun row => (collapse now1 row (hitsAt E i (j0 :: bt))).1) := by
    intro i hi
    rw [List.get?_append (by rw [hCFlen]; exact hi), hCF, collapsedFrom_get?]
    simp only [Nat.zero_add]
  have hsuf : ∀ i, db.length ≤ i → (CF ++ M.map (mkRow now1)).get? i =
      (M.get? (i - db.length)).map (mkRow now1) := by
    intro i hi
    rw [List.get?_append_right (by rw [hCFlen]; exact hi), hCFlen, List.get?_map]
  have hsamehit : ∀ t q q1, q ∈ (j0 :: bt) → q1 ∈ (j0 :: bt) →
      lookupLast E q.key = some t → lookupLast E q1.key = some t →
      q.external_id = q1.external_id := by
    intro t q q1 hq hq1 hql hq1l
    rw [hE] at hql hq1l
    obtain ⟨r, hr, hrpass, hrkey⟩ := buildEMap_target db j0.ats_type ids q.key t hql
    obtain ⟨r1, hr1, hr1pass, hr1key⟩ :=
      buildEMap_target db j0.ats_type ids q1.key t hq1l
    have hrr : r = r1 := by
      rw [hr] at hr1
      injection hr1
    have hkk : q.key = q1.key := by rw [hrkey, hrr, ← hr1key]
    obtain ⟨xq, hxq, -⟩ := hext q hq
    obtain ⟨xq1, hxq1, -⟩ := hext q1 hq1
    have hqa := hats q hq
    have hq1a := hats q1 hq1
    unfold Record.key at hkk
    rw [hqa, hq1a, hxq, hxq1] at hkk
    have hxx := keyOf_some_inj _ _ _ hkk
    rw [hxq, hxq1, hxx]
  intro j hj
  have hja : j.ats_type = some a := hats j hj
  obtain ⟨x, hjx, hxne⟩ := hext j hj
  have hxids : x ∈ ids := by
    rw [hids]
    exact (mem_incoming_extids _ x).mpr ⟨j, hj, hjx, hxne⟩
  cases hlook : lookupLast E j.key with
  | some t =>
    have hlook2 := hlook
    rw [hE] at hlook2
    obtain ⟨ρ0, hρ0, hρ0pass, hρ0key⟩ :=
      buildEMap_target db j0.ats_type ids j.key t hlook2
    have ht : t < db.length := buildEMap_target_lt db j0.ats_type ids j.key t hlook2
    have hhit : hitsAt E t (j0 :: bt) = [j] :=
      hitsAt_eq_singleton E (j0 :: bt) t j hpw hj hlook
        (fun q hq hql => hsamehit t q j hq hj hql hlook)
    obtain ⟨hρ0ats, e0, hρ0e, he0in⟩ := rowPass_elim _ _ _ hρ0pass
    have hρ0ats2 : ρ0.ats_type = some a := by rw [hρ0ats, hj0a]
    have hρ0ext : ρ0.external_id = some x := by
      have hk := hρ0key
      unfold Record.key Job.key at hk
      rw [hja, hρ0ats2, hjx, hρ0e] at hk
      have hxe := keyOf_some_inj _ _ _ hk
      rw [hρ0e, ← hxe]
    have hrowt : (CF ++ M.map (mkRow now1)).get? t = some ((updateRow now1 j ρ0).1) := by
      rw [hpre t ht, hρ0, Option.map_some', hhit, collapse_singleton]
    have hselt : sel t = false :=
      hselp t ρ0 hρ0 (closePred_false_of_mem _ _ ids ρ0 x hρ0ext hxids)
    refine ⟨t, (updateRow now1 j ρ0).1, ?_,
      fun f => updateRow_fst_getF now1 j ρ0 f, updateRow_fst_is_active now1 j ρ0, ?_⟩
    · rw [hgS t, hrowt, Option.map_some', hselt, closeMut_false]
    · intro i r hir hrats hrext
      rcases Nat.lt_or_ge i db.length with hilt | hige
      · obtain ⟨rowi, hdbi⟩ : ∃ rowi, db.get? i = some rowi := by
          cases hdbi : db.get? i with
          | none =>
            rw [List.get?_eq_none] at hdbi
            omega
          | some rowi => exact ⟨rowi, rfl⟩
        have hci : ((upsert_jobs now1 db (j0 :: bt)).1).get? i =
            some (closeMut now1 (sel i) ((collapse now1 rowi (hitsAt E i (j0 :: bt))).1)) := by
          rw [hgS i, hpre i hilt, hdbi, Option.map_some', Option.map_some']
        have hrg : r = closeMut now1 (sel i)
            ((collapse now1 rowi (hitsAt E i (j0 :: bt))).1) := by
          rw [hir] at hci
          injection hci
        have hrats2 : ((collapse now1 rowi (hitsAt E i (j0 :: bt))).1).ats_type
            = j.ats_type := by
          have hke := closeMut_ats now1 (sel i)
            ((collapse now1 rowi (hitsAt E i (j0 :: bt))).1)
          rw [← hke, ← hrg]
          exact hrats
        have hrext2 : ((collapse now1 rowi (hitsAt E i (j0 :: bt))).1).external_id
            = j.external_id := by
          have hke := closeMut_ext now1 (sel i)
            ((collapse now1 rowi (hitsAt E i (j0 :: bt))).1)
          rw [← hke, ← hrg]
          exact hrext
        cases hh : hitsAt E i (j0 :: bt) with
        | nil =>
          rw [hh] at hrats2 hrext2
          have hrowia : rowi.ats_type = some a := by
            have : (collapse now1 rowi ([] : List Record)).1 = rowi := rfl
            rw [this] at hrats2
            rw [hrats2, hja]
          have hrowie : rowi.external_id = some x := by
            have : (collapse now1 rowi ([] : List Record)).1 = rowi := rfl
            rw [this] at hrext2
            rw [hrext2, hjx]
          exact uniqueKeys_pos db hu i t rowi ρ0 hdbi hρ0
            (by rw [hrowia, hρ0ats2]) (by rw [hrowie, hρ0ext])
        | cons q rest =>
          have hqin : q ∈ hitsAt E i (j0 :: bt) := by
            rw [hh]
            exact List.mem_cons_self q rest
          unfold hitsAt at hqin
          have hqb : q ∈ (j0 :: bt) := (List.mem_filter.mp hqin).1
          have hqlook : lookupLast E q.key = some i := by
            have hq2 := (List.mem_filter.mp hqin).2
            simpa using hq2
          have hsing : hitsAt E i (j0 :: bt) = [q] :=
            hitsAt_eq_singleton E (j0 :: bt) i q hpw hqb hqlook
              (fun q1 hq1 hq1l => hsamehit i q1 q hq1 hqb hq1l hqlook)
          rw [hsing] at hrext2
          rw [collapse_singleton] at hrext2
          have hciq : q.external_id = j.external_id := by
            rw [← hrext2]
            exact (updateRow_fst_ext now1 q rowi).symm
          have hqj : q = j := pairwise_ext_mem (j0 :: bt) hpw q j hqb hj hciq
          rw [hqj] at hqlook
          rw [hqlook] at hlook
          injection hlook
      · have hci := hgS i
        rw [hsuf i hige] at hci
        cases hm : M.get? (i - db.length) with
        | none =>
          rw [hm, Option.map_none', Option.map_none', hir] at hci
          exact Option.noConfusion hci
        | some q =>
          rw [hm, Option.map_some', Option.map_some', hir] at hci
          have hrq : r = closeMut now1 (sel i) (mkRow now1 q) := by injection hci
          have hqM : q ∈ M := List.get?_mem hm
          have hqb : q ∈ (j0 :: bt) := by
            rw [hM] at hqM
            unfold missesOf at hqM
            exact (List.mem_filter.mp hqM).1
          have hqext : q.external_id = j.external_id := by
            calc q.external_id = (mkRow now1 q).external_id := rfl
              _ = r.external_id := by
                  rw [hrq]
                  exact (closeMut_ext now1 (sel i) (mkRow now1 q)).symm
              _ = j.external_id := hrext
          have hqj : q = j := pairwise_ext_mem (j0 :: bt) hpw q j hqb hj hqext
          have hqM2 := hqM
          rw [hqj, hM] at hqM2
          unfold missesOf at hqM2
          have hnone := (List.mem_filter.mp hqM2).2
          rw [hlook] at hnone
          simp at hnone
  | none =>
    have hjM : j ∈ M := by
      rw [hM]
      unfold missesOf
      exact List.mem_filter.mpr ⟨hj, by rw [hlook]; rfl⟩
    obtain ⟨n, hn⟩ := List.mem_iff_get?.mp hjM
    refine ⟨db.length + n, mkRow now1 j, ?_, fun f => mkRow_getF now1 j f, rfl, ?_⟩
    · rw [hgS, hsuf (db.length + n) (Nat.le_add_right _ _),
        Nat.add_sub_cancel_left, hn, Option.map_some', Option.map_some',
        hselhi (db.length + n) (Nat.le_add_right _ _), closeMut_false]
    · intro i r hir hrats hrext
      rcases Nat.lt_or_ge i db.length with hilt | hige
      · obtain ⟨rowi, hdbi⟩ : ∃ rowi, db.get? i = some rowi := by
          cases hdbi : db.get? i with
          | none =>
            rw [List.get?_eq_none] at hdbi
            omega
          | some rowi => exact ⟨rowi, rfl⟩
        have hci : ((upsert_jobs now1 db (j0 :: bt)).1).get? i =
            some (closeMut now1 (sel i) ((collapse now1 rowi (hitsAt E i (j0 :: bt))).1)) := by
          rw [hgS i, hpre i hilt, hdbi, Option.map_some', Option.map_some']
        have hrg : r = closeMut now1 (sel i)
            ((collapse now1 rowi (hitsAt E i (j0 :: bt))).1) := by
          rw [hir] at hci
          injection hci
        have hrats2 : ((collapse now1 rowi (hitsAt E i (j0 :: bt))).1).ats_type
            = j.ats_type := by
          have hke := closeMut_ats now1 (sel i)
            ((collapse now1 rowi (hitsAt E i (j0 :: bt))).1)
          rw [← hke, ← hrg]
          exact hrats
        have hrext2 : ((collapse now1 rowi (hitsAt E i (j0 :: bt))).1).external_id
            = j.external_id := by
          have hke := closeMut_ext now1 (sel i)
            ((collapse now1 rowi (hitsAt E i (j0 :: bt))).1)
          rw [← hke, ← hrg]
          exact hrext
        cases hh : hitsAt E i (j0 :: bt) with
        | nil =>
          rw [hh] at hrats2 hrext2
          have hrowia : rowi.ats_type = some a := by
            have hcoll : (collapse now1 rowi ([] : List Record)).1 = rowi := rfl
            rw [hcoll] at hrats2
            rw [hrats2, hja]
          have hrowie : rowi.external_id = some x := by
            have hcoll : (collapse now1 rowi ([] : List Record)).1 = rowi := rfl
            rw [hcoll] at hrext2
            rw [hrext2, hjx]
          have hpass : rowPass j0.ats_type ids rowi = true := by
            rw [hj0a]
            exact rowPass_true_of a ids rowi x hrowia hrowie hxids
          have hne := lookupLast_buildEMap_ne_none db j0.ats_type ids i rowi hdbi hpass
          rw [← hE] at hne
          have hkey : rowi.key = j.key := by
            unfold Job.key Record.key
            rw [hrowia, hrowie, hja, hjx]
          rw [hkey] at hne
          exact absurd hlook hne
        | cons q rest =>
          have hqin : q ∈ hitsAt E i (j0 :: bt) := by
            rw [hh]
            exact List.mem_cons_self q rest
          unfold hitsAt at hqin
          have hqb : q ∈ (j0 :: bt) := (List.mem_filter.mp hqin).1
          have hqlook : lookupLast E q.key = some i := by
            have hq2 := (List.mem_filter.mp hqin).2
            simpa using hq2
          have hsing : hitsAt E i (j0 :: bt) = [q] :=
            hitsAt_eq_singleton E (j0 :: bt) i q hpw hqb hqlook
              (fun q1 hq1 hq1l => hsamehit i q1 q hq1 hqb hq1l hqlook)
          rw [hsing] at hrext2
          rw [collapse_singleton] at hrext2
          have hciq : q.external_id = j.external_id := by
            rw [← hrext2]
            exact (updateRow_fst_ext now1 q rowi).symm
          have hqj : q = j := pairwise_ext_mem (j0 :: bt) hpw q j hqb hj hciq
          rw [hqj] at hqlook
          rw [hlook] at hqlook
          exact Option.noConfusion hqlook
      · have hci := hgS i
        rw [hsuf i hige] at hci
        cases hm : M.get? (i - db.length) with
        | none =>
          rw [hm, Option.map_none', Option.map_none', hir] at hci
          exact Option.noConfusion hci
        | some q =>
          rw [hm, Option.map_some', Option.map_some', hir] at hci
          have hrq : r = closeMut now1 (sel i) (mkRow now1 q) := by injection hci
          have hqext : q.external_id = j.external_id := by
            calc q.external_id = (mkRow now1 q).external_id := rfl
              _ = r.external_id := by
                  rw [hrq]
                  exact (closeMut_ext now1 (sel i) (mkRow now1 q)).symm
              _ = j.external_id := hrext
          have hqb : q ∈ (j0 :: bt) := by
            have hqM : q ∈ M := List.get?_mem hm
            rw [hM] at hqM
            unfold missesOf at hqM
            exact (List.mem_filter.mp hqM).1
          have hqj : q = j := pairwise_ext_mem (j0 :: bt) hpw q j hqb hj hqext
          have hpwM : M.Pairwise (fun p q => p.external_id ≠ q.external_id) := by
            rw [hM]
            unfold missesOf
            exact hpw.filter _
          rw [hqj] at hm
          have hpos := pairwise_ext_pos M hpwM (i - db.length) n j j hm hn rfl
          omega

/-- C4 (amended): reconciling the identical batch a second time immediately
after the first yields `new = 0` and `updated = 0`, while `last_seen_at` of
every sighted row is still bumped to the current time — provided the batch's
records carry one common `ats_type`, non-empty pairwise-distinct
`external_id`s, and the store's `(ats_type, external_id)` keys are unique.
Each hypothesis marks a real boundary of the code, not slack: a record with
`external_id = ""` is re-staged every run and the second commit dies on
`uq_jobs_ats_external` (the counterexample); a record whose `ats_type`
differs from the scope's is invisible to the scope-filtered preload, so it
too is re-staged every run; duplicate keys inside one batch already abort
the *first* commit (C9); and unique store keys are the committed store's
standing constraint invariant. -/
theorem c4_second_run (now1 now2 : Nat) (db : Store) (a : String) (j0 : Record)
    (bt : List Record)
    (hats : ∀ j ∈ (j0 :: bt), j.ats_type = some a)
    (hext : ∀ j ∈ (j0 :: bt), ∃ x, j.external_id = some x ∧ x ≠ "")
    (hpw : (j0 :: bt).Pairwise (fun p q => p.external_id ≠ q.external_id))
    (hu : uniqueKeys db) :
    (upsert_jobs now2 (upsert_jobs now1 db (j0 :: bt)).1 (j0 :: bt)).2.new = 0 ∧
    (upsert_jobs now2 (upsert_jobs now1 db (j0 :: bt)).1 (j0 :: bt)).2.updated = 0 ∧
    ∀ j ∈ (j0 :: bt),
      ∃ r ∈ (upsert_jobs now2 (upsert_jobs now1 db (j0 :: bt)).1 (j0 :: bt)).1,
        (∀ f, r.getF f = j.get f) ∧ r.is_active = true ∧ r.last_seen_at = now2 := by
  have hrows := first_run_rows now1 db a j0 bt hats hext hpw hu
  set S1 := (upsert_jobs now1 db (j0 :: bt)).1 with hS1
  obtain ⟨sel2, hgS, hgnew, hgupd, hselp, hselhi⟩ := upsert_jobs_char now2 S1 j0 bt
  set ids := incoming_extids (j0 :: bt) with hids
  set E2 := buildEMap S1 j0.ats_type ids with hE2
  set M2 := missesOf E2 (j0 :: bt) with hM2
  have hj0a : j0.ats_type = some a := hats j0 (List.mem_cons_self j0 bt)
  have hlook2 : ∀ j ∈ (j0 :: bt), ∃ t ρ, S1.get? t = some ρ ∧
      (∀ f, ρ.getF f = j.get f) ∧ ρ.is_active = true ∧
      lookupLast E2 j.key = some t ∧
      (∀ i r, S1.get? i = some r → r.ats_type = j.ats_type →
        r.external_id = j.external_id → i = t) := by
    intro j hj
    obtain ⟨t, ρ, hρget, hρf, hρact, huniq⟩ := hrows j hj
    have hja := hats j hj
    obtain ⟨x, hjx, hxne⟩ := hext j hj
    have hxids : x ∈ ids := by
      rw [hids]
      exact (mem_incoming_extids _ x).mpr ⟨j, hj, hjx, hxne⟩
    have hρats : ρ.ats_type = j.ats_type := hρf Field.ats_type
    have hρext : ρ.external_id = j.external_id := hρf Field.external_id
    have hρkey : ρ.key = j.key := by
      unfold Job.key Record.key
      rw [hρats, hρext]
    have hρpass : rowPass j0.ats_type ids ρ = true := by
      rw [hj0a]
      exact rowPass_true_of a ids ρ x (by rw [hρats, hja]) (by rw [hρext, hjx]) hxids
    have hmem : (j.key, t) ∈ E2 := by
      rw [hE2]
      exact (mem_buildEMap_iff S1 j0.ats_type ids (j.key, t)).mpr
        ⟨ρ, hρget, hρpass, hρkey.symm⟩
    have hluniq : ∀ p ∈ E2, p.1 = j.key → p.2 = t := by
      intro p hp hpk
      rw [hE2] at hp
      obtain ⟨r, hrget, hrpass, hrkey⟩ := (mem_buildEMap_iff S1 j0.ats_type ids p).mp hp
      obtain ⟨hra, e, hre, hein⟩ := rowPass_elim _ _ _ hrpass
      have hra2 : r.ats_type = some a := by rw [hra, hj0a]
      have hk : r.key = j.key := by rw [← hrkey, hpk]
      unfold Job.key Record.key at hk
      rw [hra2, hre, hja, hjx] at hk
      have hex := keyOf_some_inj _ _ _ hk
      exact huniq p.2 r hrget (by rw [hra2, hja]) (by rw [hre, hex, hjx])
    exact ⟨t, ρ, hρget, hρf, hρact, lookupLast_of_unique j.key t E2 hmem hluniq, huniq⟩
  have hM2nil : M2 = [] := by
    rw [hM2]
    unfold missesOf
    rw [List.filter_eq_nil_iff]
    intro j hj
    obtain ⟨t, ρ, -, -, -, hl, -⟩ := hlook2 j hj
    rw [hl]
    simp
  have hnew : (upsert_jobs now2 S1 (j0 :: bt)).2.new = 0 := by
    rw [hgnew, hM2nil]
    rfl
  have hsing : ∀ j ∈ (j0 :: bt), ∀ t, lookupLast E2 j.key = some t →
      hitsAt E2 t (j0 :: bt) = [j] := by
    intro j hj t hl
    obtain ⟨t2, ρ, hρget, hρf, -, hl2, -⟩ := hlook2 j hj
    have htt : t2 = t := by
      rw [hl2] at hl
      injection hl
    subst htt
    apply hitsAt_eq_singleton E2 (j0 :: bt) t2 j hpw hj hl2
    intro q hq hql
    obtain ⟨tq, ρq, hρqget, hρqf, -, hlq, -⟩ := hlook2 q hq
    have htq : tq = t2 := by
      rw [hlq] at hql
      injection hql
    rw [htq] at hρqget
    have hρρ : ρq = ρ := by
      rw [hρget] at hρqget
      injection hρqget with h
      exact h.symm
    calc q.external_id = ρq.external_id := (hρqf Field.external_id).symm
      _ = ρ.external_id := by rw [hρρ]
      _ = j.external_id := hρf Field.external_id
  have hupd : (upsert_jobs now2 S1 (j0 :: bt)).2.updated = 0 := by
    rw [hgupd]
    apply updSumFrom_eq_zero now2 E2 (j0 :: bt) S1 0
    intro i row hrow
    rw [Nat.zero_add]
    cases hh : hitsAt E2 i (j0 :: bt) with
    | nil => rfl
    | cons q rest =>
      have hqin : q ∈ hitsAt E2 i (j0 :: bt) := by
        rw [hh]
        exact List.mem_cons_self q rest
      unfold hitsAt at hqin
      have hqb : q ∈ (j0 :: bt) := (List.mem_filter.mp hqin).1
      have hqlook : lookupLast E2 q.key = some i := by
        simpa using (List.mem_filter.mp hqin).2
      have hs := hsing q hqb i hqlook
      rw [hh] at hs
      have hrest : rest = [] := by
        injection hs with h1 h2
      subst hrest
      obtain ⟨tq, ρq, hρqget, hρqf, hρqact, hlq, -⟩ := hlook2 q hqb
      have hti : tq = i := by
        rw [hlq] at hqlook
        injection hqlook
      rw [hti] at hρqget
      have hρρ : ρq = row := by
        rw [hrow] at hρqget
        injection hρqget with h
        exact h.symm
      have hur := updateRow_of_same now2 q row
        (fun f => by rw [← hρρ]; exact hρqf f) (by rw [← hρρ]; exact hρqact)
      rw [collapse_singleton]
      simp [hur]
  refine ⟨hnew, hupd, ?_⟩
  intro j hj
  obtain ⟨t, ρ, hρget, hρf, hρact, hl, -⟩ := hlook2 j hj
  have hs := hsing j hj t hl
  obtain ⟨x, hjx, hxne⟩ := hext j hj
  have hxids : x ∈ ids := by
    rw [hids]
    exact (mem_incoming_extids _ x).mpr ⟨j, hj, hjx, hxne⟩
  have ht : t < S1.length := (List.get?_eq_some.mp hρget).choose
  have hρsame := updateRow_of_same now2 j ρ hρf hρact
  have hρe : ρ.external_id = j.external_id := hρf Field.external_id
  have hsel2t : sel2 t = false :=
    hselp t ρ hρget (closePred_false_of_mem _ _ ids ρ x (by rw [hρe, hjx]) hxids)
  have hw : ((upsert_jobs now2 S1 (j0 :: bt)).1).get? t =
      some ({ρ with last_seen_at := now2}) := by
    rw [hgS t,
      List.get?_append (by rw [collapsedFrom_length]; exact ht),
      collapsedFrom_get?, Nat.zero_add, hρget, Option.map_some', Option.map_some',
      hs, collapse_singleton, hρsame, hsel2t, closeMut_false]
  refine ⟨{ρ with last_seen_at := now2}, List.get?_mem hw, ?_, hρact, rfl⟩
  intro f
  have hgf : ({ρ with last_seen_at := now2} : Job).getF f = ρ.getF f := by
    cases f <;> rfl
  rw [hgf]
  exact hρf f

theorem c4_second_run_witness :
    (upsert_jobs 7 (upsert_jobs 5 [] [vrec 1, vrec 2]).1 [vrec 1, vrec 2]).2.new = 0 ∧
    (upsert_jobs 7 (upsert_jobs 5 [] [vrec 1, vrec 2]).1 [vrec 1, vrec 2]).2.updated
      = 0 ∧
    ∀ j ∈ [vrec 1, vrec 2],
      ∃ r ∈ (upsert_jobs 7 (upsert_jobs 5 [] [vrec 1, vrec 2]).1 [vrec 1, vrec 2]).1,
        (∀ f, r.getF f = j.get f) ∧ r.is_active = true ∧ r.last_seen_at = 7 :=
  c4_second_run 5 7 [] "kekahr" (vrec 1) [vrec 2]
    (by decide)
    (by
      intro j hj
      fin_cases hj
      · exact ⟨"J1", rfl, by decide⟩
      · exact ⟨"J2", rfl, by decide⟩)
    (by decide)
    (by decide)

/-! ## C5 (amended) — reappearance through a non-empty external id -/

theorem hits_same_ext (db : Store) (ats0 : Option String) (ids : List String)
    (a : String) (b : List Record)
    (hats : ∀ j ∈ b, j.ats_type = some a)
    (hext : ∀ j ∈ b, ∃ x, j.external_id = some x ∧ x ≠ "") :
    ∀ t q q1, q ∈ b → q1 ∈ b →
      lookupLast (buildEMap db ats0 ids) q.key = some t →
      lookupLast (buildEMap db ats0 ids) q1.key = some t →
      q.external_id = q1.external_id := by
  intro t q q1 hq hq1 hql hq1l
  obtain ⟨r, hr, hrpass, hrkey⟩ := buildEMap_target db ats0 ids q.key t hql
  obtain ⟨r1, hr1, hr1pass, hr1key⟩ := buildEMap_target db ats0 ids q1.key t hq1l
  have hrr : r = r1 := by
    rw [hr] at hr1
    injection hr1
  have hkk : q.key = q1.key := by rw [hrkey, hrr, ← hr1key]
  obtain ⟨xq, hxq, -⟩ := hext q hq
  obtain ⟨xq1, hxq1, -⟩ := hext q1 hq1
  have hqa := hats q hq
  have hq1a := hats q1 hq1
  unfold Record.key at hkk
  rw [hqa, hq1a, hxq, hxq1] at hkk
  have hxx := keyOf_some_inj _ _ _ hkk
  rw [hxq, hxq1, hxx]

theorem updSumFrom_ge (now : Nat) (E : List (String × Nat)) (b : List Record) :
    ∀ (st : Store) (i0 i : Nat) (row : Job), st.get? i = some row →
      (collapse now row (hitsAt E (i0 + i) b)).2 ≤ updSumFrom now E b i0 st := by
  intro st
  induction st with
  | nil =>
    intro i0 i row h
    exact absurd h (by simp)
  | cons r0 rest ih =>
    intro i0 i row h
    rw [updSumFrom_cons]
    cases i with
    | zero =>
      injection h with h
      subst h
      rw [Nat.add_zero]
      exact Nat.le_add_right _ _
    | succ m =>
      have hh := ih (i0 + 1) m row h
      have harith : i0 + (m + 1) = i0 + 1 + m := by omega
      rw [harith]
      omega

/-- C5 (amended with a non-empty `external_id`): for every committed catalog
entry with `is_active = false` whose `external_id` is a non-empty string `x`,
and every well-formed batch — one `ats_type` matching the entry's, non-empty
pairwise-distinct external ids — containing a record `jr` with the entry's
key, reconciliation finds the entry through the preload (its id is in
`incoming_extids`), so `jr` is *not* a miss (not counted as `new`; `new`
counts exactly the misses), the hit is counted in `updated` even when every
field matches, and the entry's row ends `is_active = true` with
`first_seen_at` preserved from its original creation, `last_seen_at`
advanced to the run time, and the thirteen normalized columns set to `jr`'s
values.  Each well-formedness hypothesis marks a real boundary of the code:
an empty id never reaches `incoming_extids` (see the counterexample), a
record of another `ats_type` is invisible to the scope-filtered preload, and
duplicate ids or duplicate store keys abort the commit on
`uq_jobs_ats_external`. -/
theorem c5_reappearance (now : Nat) (db : Store) (a : String) (j0 : Record)
    (bt : List Record) (i : Nat) (e : Job) (jr : Record) (x : String)
    (hats : ∀ j ∈ (j0 :: bt), j.ats_type = some a)
    (hext : ∀ j ∈ (j0 :: bt), ∃ y, j.external_id = some y ∧ y ≠ "")
    (hpw : (j0 :: bt).Pairwise (fun p q => p.external_id ≠ q.external_id))
    (hu : uniqueKeys db)
    (hjr : jr ∈ (j0 :: bt))
    (hget : db.get? i = some e)
    (hinact : e.is_active = false)
    (hea : e.ats_type = some a)
    (hee : e.external_id = some x)
    (hje : jr.external_id = some x) :
    (upsert_jobs now db (j0 :: bt)).2.new =
      (missesOf (buildEMap db j0.ats_type (incoming_extids (j0 :: bt)))
        (j0 :: bt)).length ∧
    jr ∉ missesOf (buildEMap db j0.ats_type (incoming_extids (j0 :: bt)))
      (j0 :: bt) ∧
    1 ≤ (upsert_jobs now db (j0 :: bt)).2.updated ∧
    ∃ r1, (upsert_jobs now db (j0 :: bt)).1.get? i = some r1 ∧
      r1.is_active = true ∧
      r1.first_seen_at = e.first_seen_at ∧
      r1.last_seen_at = now ∧
      (∀ f, r1.getF f = jr.get f) := by
  obtain ⟨sel, hgS, hgnew, hgupd, hselp, hselhi⟩ := upsert_jobs_char now db j0 bt
  set ids := incoming_extids (j0 :: bt) with hids
  set E := buildEMap db j0.ats_type ids with hE
  have hj0a : j0.ats_type = some a := hats j0 (List.mem_cons_self j0 bt)
  have hxne : x ≠ "" := by
    obtain ⟨y, hy, hyne⟩ := hext jr hjr
    rw [hje] at hy
    injection hy with hy
    rw [hy]
    exact hyne
  have hxids : x ∈ ids := by
    rw [hids]
    exact (mem_incoming_extids _ x).mpr ⟨jr, hjr, hje, hxne⟩
  have hi : i < db.length := (List.get?_eq_some.mp hget).choose
  have hpass : rowPass j0.ats_type ids e = true := by
    rw [hj0a]
    exact rowPass_true_of a ids e x hea hee hxids
  have hkey : jr.key = e.key := by
    unfold Record.key Job.key
    rw [hats jr hjr, hea, hje, hee]
  have hlook : lookupLast E jr.key = some i := by
    apply lookupLast_of_unique
    · rw [hE]
      exact (mem_buildEMap_iff db _ _ (jr.key, i)).mpr ⟨e, hget, hpass, hkey⟩
    · intro p hp hpk
      rw [hE] at hp
      obtain ⟨r, hrget, hrpass, hrkey⟩ := (mem_buildEMap_iff db _ _ p).mp hp
      obtain ⟨hra, y, hry, hyin⟩ := rowPass_elim _ _ _ hrpass
      have hra2 : r.ats_type = some a := by rw [hra, hj0a]
      have hk : r.key = jr.key := by rw [← hrkey, hpk]
      unfold Job.key Record.key at hk
      rw [hra2, hry, hats jr hjr, hje] at hk
      have hxy := keyOf_some_inj _ _ _ hk
      exact uniqueKeys_pos db hu p.2 i r e hrget hget
        (by rw [hra2, hea]) (by rw [hry, hxy, hee])
  have hnomiss : jr ∉ missesOf E (j0 :: bt) := by
    intro hm
    unfold missesOf at hm
    have hno := (List.mem_filter.mp hm).2
    rw [hlook] at hno
    simp at hno
  have hhit : hitsAt E i (j0 :: bt) = [jr] := by
    apply hitsAt_eq_singleton E (j0 :: bt) i jr hpw hjr hlook
    intro q hq hql
    have hql2 := hql
    have hlook2 := hlook
    rw [hE] at hql2 hlook2
    exact hits_same_ext db j0.ats_type ids a (j0 :: bt) hats hext i q jr
      hq hjr hql2 hlook2
  have hupd : updateRow now jr e =
      ({ withFields jr e with is_active := true, last_seen_at := now }, true) := by
    rw [updateRow_eq, hinact]
    simp
  have hrowi : (collapsedFrom now E (j0 :: bt) 0 db ++
      (missesOf E (j0 :: bt)).map (mkRow now)).get? i =
      some ((updateRow now jr e).1) := by
    rw [List.get?_append (by rw [collapsedFrom_length]; exact hi),
      collapsedFrom_get?, Nat.zero_add, hget, Option.map_some', hhit,
      collapse_singleton]
  have hseli : sel i = false :=
    hselp i e hget (closePred_false_of_mem _ _ ids e x hee hxids)
  refine ⟨hgnew, hnomiss, ?_, ?_⟩
  · rw [hgupd]
    have hcoll : (collapse now e (hitsAt E (0 + i) (j0 :: bt))).2 = 1 := by
      rw [Nat.zero_add, hhit, collapse_singleton, hupd]
      rfl
    have hge := updSumFrom_ge now E (j0 :: bt) db 0 i e hget
    rw [hcoll] at hge
    exact hge
  · have hrw : ((upsert_jobs now db (j0 :: bt)).1).get? i =
        some ({ withFields jr e with is_active := true, last_seen_at := now }) := by
      rw [hgS i, hrowi, Option.map_some', hseli, closeMut_false, hupd]
    refine ⟨_, hrw, rfl, rfl, rfl, ?_⟩
    intro f
    have h1 : ({ withFields jr e with is_active := true, last_seen_at := now } : Job).getF f = (withFields jr e).getF f := by
      cases f <;> rfl
    rw [h1]
    cases f <;> rfl

/-- Witness for the amended C5: a closed `(kekahr, "J1")` row is reactivated
by a two-record batch containing the identical `J1` record — not a miss, the
hit is counted in `updated`, and the row ends active with its original
`first_seen_at` and the run time as `last_seen_at`. -/
theorem c5_reappearance_witness :
    (upsert_jobs 3 [{ mkRow 0 (vrec 1) with is_active := false }]
        [vrec 1, vrec 2]).2.new =
      (missesOf (buildEMap [{ mkRow 0 (vrec 1) with is_active := false }]
          (vrec 1).ats_type (incoming_extids [vrec 1, vrec 2]))
        [vrec 1, vrec 2]).length ∧
    vrec 1 ∉ missesOf (buildEMap [{ mkRow 0 (vrec 1) with is_active := false }]
        (vrec 1).ats_type (incoming_extids [vrec 1, vrec 2])) [vrec 1, vrec 2] ∧
    1 ≤ (upsert_jobs 3 [{ mkRow 0 (vrec 1) with is_active := false }]
        [vrec 1, vrec 2]).2.updated ∧
    ∃ r1, (upsert_jobs 3 [{ mkRow 0 (vrec 1) with is_active := false }]
        [vrec 1, vrec 2]).1.get? 0 = some r1 ∧
      r1.is_active = true ∧
      r1.first_seen_at =
        ({ mkRow 0 (vrec 1) with is_active := false } : Job).first_seen_at ∧
      r1.last_seen_at = 3 ∧
      (∀ f, r1.getF f = (vrec 1).get f) :=
  c5_reappearance 3 [{ mkRow 0 (vrec 1) with is_active := false }] "kekahr"
    (vrec 1) [vrec 2] 0 { mkRow 0 (vrec 1) with is_active := false } (vrec 1) "J1"
    (by decide)
    (by
      intro j hj
      fin_cases hj
      · exact ⟨"J1", rfl, by decide⟩
      · exact ⟨"J2", rfl, by decide⟩)
    (by decide)
    (by decide)
    (List.mem_cons_self _ _)
    rfl rfl rfl rfl rfl

end AtsScraper
